import Mathlib

/-!
Verification of the Verdo ingester's extraction orchestration layer.

Python strings are modelled as `List Char` (`PyStr`), Python floats as exact
rationals `ℚ`, Python `dict`s as insertion-ordered association lists, and
fallible Python code (code that can raise) as `Option`-returning functions.
External collaborators (the generative-AI client, the document-geometry
reader, `json.loads` of the standard library) are passed in as function
parameters (oracles), so every theorem quantifies over their behaviour.
-/

/-- Python `str` values, modelled as their character lists. -/
abbrev PyStr := List Char

/-- Python `str.strip()`: remove leading and trailing whitespace. -/
def pyStrip (s : PyStr) : PyStr :=
  ((s.dropWhile Char.isWhitespace).reverse.dropWhile Char.isWhitespace).reverse

/-- Python truthiness of an `Optional[str]`: `None` and `""` are falsy. -/
def pyTruthy : Option PyStr → Bool
  | none => false
  | some t => !t.isEmpty

/-- `needle` is a prefix of `hay` (helper for Python's substring test `in`). -/
def listStartsWith : PyStr → PyStr → Bool
  | [], _ => true
  | _ :: _, [] => false
  | a :: as, b :: bs => a == b && listStartsWith as bs

/-- Python's substring test `needle in hay`. -/
def containsSub (needle : PyStr) : PyStr → Bool
  | [] => listStartsWith needle []
  | c :: rest => listStartsWith needle (c :: rest) || containsSub needle rest

/-- Python `s.replace(old, new)` for a single-character `old` (every
replacement key used by the source is a single character). -/
def charReplace (old : Char) (new : PyStr) : PyStr → PyStr
  | [] => []
  | c :: rest => (if c == old then new else [c]) ++ charReplace old new rest

/-! ## `NmsProcessor` (app/services/ingester/core/nms_processor.py)

An axis-aligned bounding box `(xMin, yMin, xMax, yMax)`.  Coordinates are
exact rationals standing in for Python floats. -/

structure Box where
  xMin : ℚ
  yMin : ℚ
  xMax : ℚ
  yMax : ℚ
deriving DecidableEq, Repr

/-- `NmsProcessor.computeIou`.  The Python division
`interArea / (box1Area + box2Area - interArea)` raises `ZeroDivisionError`
when the denominator is zero, so the embedding returns `none` there. -/
def computeIou (b1 b2 : Box) : Option ℚ :=
  if min b1.xMax b2.xMax < max b1.xMin b2.xMin ∨
     min b1.yMax b2.yMax < max b1.yMin b2.yMin then
    some 0
  else
    if (b1.xMax - b1.xMin) * (b1.yMax - b1.yMin) +
       (b2.xMax - b2.xMin) * (b2.yMax - b2.yMin) -
       (min b1.xMax b2.xMax - max b1.xMin b2.xMin) *
       (min b1.yMax b2.yMax - max b1.yMin b2.yMin) = 0 then
      none
    else
      some ((min b1.xMax b2.xMax - max b1.xMin b2.xMin) *
            (min b1.yMax b2.yMax - max b1.yMin b2.yMin) /
            ((b1.xMax - b1.xMin) * (b1.yMax - b1.yMin) +
             (b2.xMax - b2.xMin) * (b2.yMax - b2.yMin) -
             (min b1.xMax b2.xMax - max b1.xMin b2.xMin) *
             (min b1.yMax b2.yMax - max b1.yMin b2.yMin)))

/-- One raw detector output: `{class_name, bbox, conf}`. -/
structure Detection where
  className : PyStr
  bbox : Box
  conf : ℚ
deriving DecidableEq, Repr

/-- Insert a detection into a list already sorted by non-increasing
confidence, before the first strictly-lower-or-equal entry.  Together with
`sortByConfDesc` this models CPython's stable
`detections.sort(key=lambda x: x['conf'], reverse=True)`. -/
def insertByConf (d : Detection) : List Detection → List Detection
  | [] => [d]
  | x :: xs => if x.conf ≤ d.conf then d :: x :: xs else x :: insertByConf d xs

/-- Stable sort by confidence descending (ties keep input order), the
observable behaviour of `list.sort(key=..., reverse=True)`. -/
def sortByConfDesc : List Detection → List Detection
  | [] => []
  | d :: ds => insertByConf d (sortByConfDesc ds)

/-- The list comprehension inside `removeDuplicates`: keep `d` when its class
differs from `best`'s or its IoU with `best` is at most the threshold.
Python's `or` short-circuits, so the IoU (which can raise, i.e. `none`) is
only computed for same-class pairs; a raise aborts the whole call. -/
def pruneSameClass (thr : ℚ) (best : Detection) : List Detection → Option (List Detection)
  | [] => some []
  | d :: ds =>
    if d.className = best.className then
      match computeIou d.bbox best.bbox with
      | none => none
      | some v =>
        match pruneSameClass thr best ds with
        | none => none
        | some rest => some (if v ≤ thr then d :: rest else rest)
    else
      match pruneSameClass thr best ds with
      | none => none
      | some rest => some (d :: rest)

/-- The `while detections:` loop of `removeDuplicates`: pop the
highest-confidence detection, keep it, prune, repeat.  `fuel` bounds the
iteration count; `removeDuplicates` passes the input length, which always
suffices because pruning never lengthens the list. -/
def nmsLoop (thr : ℚ) : Nat → List Detection → Option (List Detection)
  | _, [] => some []
  | 0, _ :: _ => none
  | fuel + 1, best :: rest =>
    match pruneSameClass thr best rest with
    | none => none
    | some pruned =>
      match nmsLoop thr fuel pruned with
      | none => none
      | some kept => some (best :: kept)

/-- `NmsProcessor.removeDuplicates` (the Python default threshold is 0.7;
here the threshold is always passed explicitly). -/
def removeDuplicates (dets : List Detection) (thr : ℚ) : Option (List Detection) :=
  nmsLoop thr dets.length (sortByConfDesc dets)

/-! Helper lemmas about the NMS embedding. -/

theorem pruneSameClass_length {thr : ℚ} {best : Detection} :
    ∀ {l l' : List Detection}, pruneSameClass thr best l = some l' →
      l'.length ≤ l.length := by
  intro l
  induction l with
  | nil =>
    intro l' h
    simp only [pruneSameClass, Option.some.injEq] at h
    subst h; simp
  | cons d ds ih =>
    intro l' h
    simp only [pruneSameClass] at h
    by_cases hc : d.className = best.className
    · rw [if_pos hc] at h
      cases hiou : computeIou d.bbox best.bbox with
      | none => rw [hiou] at h; exact absurd h (by simp)
      | some v =>
        rw [hiou] at h
        cases hrec : pruneSameClass thr best ds with
        | none => rw [hrec] at h; exact absurd h (by simp)
        | some rest =>
          rw [hrec] at h
          simp only [Option.some.injEq] at h
          subst h
          by_cases hv : v ≤ thr
          · rw [if_pos hv]; simpa using ih hrec
          · rw [if_neg hv]; exact Nat.le_succ_of_le (ih hrec)
    · rw [if_neg hc] at h
      cases hrec : pruneSameClass thr best ds with
      | none => rw [hrec] at h; exact absurd h (by simp)
      | some rest =>
        rw [hrec] at h
        simp only [Option.some.injEq] at h
        subst h
        simpa using ih hrec

theorem pruneSameClass_mem {thr : ℚ} {best : Detection} :
    ∀ {l l' : List Detection}, pruneSameClass thr best l = some l' →
      ∀ d ∈ l', d ∈ l := by
  intro l
  induction l with
  | nil =>
    intro l' h
    simp only [pruneSameClass, Option.some.injEq] at h
    subst h; simp
  | cons x ds ih =>
    intro l' h d hd
    simp only [pruneSameClass] at h
    by_cases hc : x.className = best.className
    · rw [if_pos hc] at h
      cases hiou : computeIou x.bbox best.bbox with
      | none => rw [hiou] at h; exact absurd h (by simp)
      | some v =>
        rw [hiou] at h
        cases hrec : pruneSameClass thr best ds with
        | none => rw [hrec] at h; exact absurd h (by simp)
        | some rest =>
          rw [hrec] at h
          simp only [Option.some.injEq] at h
          subst h
          by_cases hv : v ≤ thr
          · rw [if_pos hv] at hd
            rcases List.mem_cons.mp hd with rfl | hd
            · simp
            · exact List.mem_cons_of_mem _ (ih hrec d hd)
          · rw [if_neg hv] at hd
            exact List.mem_cons_of_mem _ (ih hrec d hd)
    · rw [if_neg hc] at h
      cases hrec : pruneSameClass thr best ds with
      | none => rw [hrec] at h; exact absurd h (by simp)
      | some rest =>
        rw [hrec] at h
        simp only [Option.some.injEq] at h
        subst h
        rcases List.mem_cons.mp hd with rfl | hd
        · simp
        · exact List.mem_cons_of_mem _ (ih hrec d hd)

theorem pruneSameClass_sound {thr : ℚ} {best : Detection} :
    ∀ {l l' : List Detection}, pruneSameClass thr best l = some l' →
      ∀ d ∈ l', d.className = best.className →
        ∃ v, computeIou d.bbox best.bbox = some v ∧ v ≤ thr := by
  intro l
  induction l with
  | nil =>
    intro l' h
    simp only [pruneSameClass, Option.some.injEq] at h
    subst h; simp
  | cons x ds ih =>
    intro l' h d hd hcls
    simp only [pruneSameClass] at h
    by_cases hc : x.className = best.className
    · rw [if_pos hc] at h
      cases hiou : computeIou x.bbox best.bbox with
      | none => rw [hiou] at h; exact absurd h (by simp)
      | some v =>
        rw [hiou] at h
        cases hrec : pruneSameClass thr best ds with
        | none => rw [hrec] at h; exact absurd h (by simp)
        | some rest =>
          rw [hrec] at h
          simp only [Option.some.injEq] at h
          subst h
          by_cases hv : v ≤ thr
          · rw [if_pos hv] at hd
            rcases List.mem_cons.mp hd with rfl | hd
            · exact ⟨v, hiou, hv⟩
            · exact ih hrec d hd hcls
          · rw [if_neg hv] at hd
            exact ih hrec d hd hcls
    · rw [if_neg hc] at h
      cases hrec : pruneSameClass thr best ds with
      | none => rw [hrec] at h; exact absurd h (by simp)
      | some rest =>
        rw [hrec] at h
        simp only [Option.some.injEq] at h
        subst h
        rcases List.mem_cons.mp hd with rfl | hd
        · exact absurd hcls hc
        · exact ih hrec d hd hcls

/-- Inversion for a successful step of the NMS loop. -/
theorem nmsLoop_succ_inv {thr : ℚ} {fuel : Nat} {best : Detection}
    {rest out : List Detection}
    (h : nmsLoop thr (fuel + 1) (best :: rest) = some out) :
    ∃ pruned kept, pruneSameClass thr best rest = some pruned ∧
      nmsLoop thr fuel pruned = some kept ∧ out = best :: kept := by
  simp only [nmsLoop] at h
  split at h
  · exact absurd h (by simp)
  · next pruned hp =>
    split at h
    · exact absurd h (by simp)
    · next kept hl =>
      refine ⟨pruned, kept, hp, hl, ?_⟩
      injection h with h
      exact h.symm

theorem nmsLoop_mem {thr : ℚ} :
    ∀ {fuel : Nat} {l out : List Detection}, nmsLoop thr fuel l = some out →
      ∀ d ∈ out, d ∈ l := by
  intro fuel
  induction fuel with
  | zero =>
    intro l out h
    cases l with
    | nil =>
      simp only [nmsLoop, Option.some.injEq] at h
      subst h; simp
    | cons best rest => simp [nmsLoop] at h
  | succ fuel ih =>
    intro l out h d hd
    cases l with
    | nil =>
      simp only [nmsLoop, Option.some.injEq] at h
      subst h; simp at hd
    | cons best rest =>
      obtain ⟨pruned, kept, hp, hl, rfl⟩ := nmsLoop_succ_inv h
      rcases List.mem_cons.mp hd with rfl | hd
      · simp
      · exact List.mem_cons_of_mem _ (pruneSameClass_mem hp d (ih hl d hd))

/-- The pairwise guarantee of the greedy loop: any later-kept detection of
the same class as an earlier-kept one passed the prune test against it. -/
theorem nmsLoop_pairwise {thr : ℚ} :
    ∀ {fuel : Nat} {l out : List Detection}, nmsLoop thr fuel l = some out →
      out.Pairwise (fun a b => a.className = b.className →
        ∃ v, computeIou b.bbox a.bbox = some v ∧ v ≤ thr) := by
  intro fuel
  induction fuel with
  | zero =>
    intro l out h
    cases l with
    | nil =>
      simp only [nmsLoop, Option.some.injEq] at h
      subst h; simp
    | cons best rest => simp [nmsLoop] at h
  | succ fuel ih =>
    intro l out h
    cases l with
    | nil =>
      simp only [nmsLoop, Option.some.injEq] at h
      subst h; simp
    | cons best rest =>
      obtain ⟨pruned, kept, hp, hl, rfl⟩ := nmsLoop_succ_inv h
      refine List.Pairwise.cons ?_ (ih hl)
      intro b hb hcls
      exact pruneSameClass_sound hp b (nmsLoop_mem hl b hb) hcls.symm

/-- IoU is symmetric in its two boxes. -/
theorem computeIou_comm (b1 b2 : Box) : computeIou b1 b2 = computeIou b2 b1 := by
  unfold computeIou
  rw [min_comm b2.xMax b1.xMax, min_comm b2.yMax b1.yMax,
    max_comm b2.xMin b1.xMin, max_comm b2.yMin b1.yMin,
    add_comm ((b2.xMax - b2.xMin) * (b2.yMax - b2.yMin))
      ((b1.xMax - b1.xMin) * (b1.yMax - b1.yMin))]

/-- C2: in the output of `NmsProcessor.removeDuplicates`, any two kept
detections sharing a class label have a defined IoU that is at most the
threshold; cross-class pairs are unconstrained. -/
theorem removeDuplicates_same_class_iou_le (dets out : List Detection) (thr : ℚ)
    (h : removeDuplicates dets thr = some out) :
    out.Pairwise (fun a b => a.className = b.className →
      ∃ v, computeIou a.bbox b.bbox = some v ∧
        computeIou b.bbox a.bbox = some v ∧ v ≤ thr) := by
  have hp := @nmsLoop_pairwise thr dets.length (sortByConfDesc dets) out h
  refine hp.imp ?_
  intro a b hab hcls
  obtain ⟨v, hv, hle⟩ := hab hcls
  exact ⟨v, (computeIou_comm a.bbox b.bbox).trans hv, hv, hle⟩

/-- Witness for C2 at a concrete input: two heavily-overlapping same-class
detections with threshold 1/2; only the higher-confidence one is kept. -/
theorem removeDuplicates_same_class_iou_le_witness :
    removeDuplicates
        [⟨['t'], ⟨0, 0, 10, 10⟩, 9/10⟩, ⟨['t'], ⟨1, 1, 9, 9⟩, 8/10⟩] (1/2) =
      some [⟨['t'], ⟨0, 0, 10, 10⟩, 9/10⟩] ∧
    ([⟨['t'], ⟨0, 0, 10, 10⟩, 9/10⟩] : List Detection).Pairwise
      (fun a b => a.className = b.className →
        ∃ v, computeIou a.bbox b.bbox = some v ∧
          computeIou b.bbox a.bbox = some v ∧ v ≤ (1/2 : ℚ)) :=
  ⟨by norm_num [removeDuplicates, sortByConfDesc, insertByConf, nmsLoop,
      pruneSameClass, computeIou],
    removeDuplicates_same_class_iou_le
      [⟨['t'], ⟨0, 0, 10, 10⟩, 9/10⟩, ⟨['t'], ⟨1, 1, 9, 9⟩, 8/10⟩]
      [⟨['t'], ⟨0, 0, 10, 10⟩, 9/10⟩] (1/2)
      (by norm_num [removeDuplicates, sortByConfDesc, insertByConf, nmsLoop,
        pruneSameClass, computeIou])⟩

/-- C3: `computeIou` on two touching degenerate (zero-width) boxes reaches
the division with denominator `box1Area + box2Area - interArea = 0`; the
Python code raises `ZeroDivisionError` there (modelled as `none`), refuting
the claim that degenerate boxes never raise. -/
theorem computeIou_degenerate_divides_by_zero :
    computeIou ⟨0, 0, 0, 10⟩ ⟨0, 0, 0, 10⟩ = none := by
  norm_num [computeIou]

theorem insertByConf_perm (d : Detection) (l : List Detection) :
    (insertByConf d l).Perm (d :: l) := by
  induction l with
  | nil => simp [insertByConf]
  | cons x xs ih =>
    by_cases h : x.conf ≤ d.conf
    · simp [insertByConf, h]
    · simp only [insertByConf, if_neg h]
      exact (ih.cons x).trans (List.Perm.swap d x xs)

theorem sortByConfDesc_perm (l : List Detection) :
    (sortByConfDesc l).Perm l := by
  induction l with
  | nil => simp [sortByConfDesc]
  | cons d ds ih =>
    exact (insertByConf_perm d (sortByConfDesc ds)).trans (ih.cons d)

/-- A list already sorted by non-increasing confidence is left unchanged by
the stable sort. -/
theorem sortByConfDesc_eq_self {l : List Detection}
    (h : l.Pairwise (fun a b => b.conf ≤ a.conf)) : sortByConfDesc l = l := by
  induction l with
  | nil => rfl
  | cons d ds ih =>
    have htail := List.Pairwise.of_cons h
    simp only [sortByConfDesc, ih htail]
    cases ds with
    | nil => rfl
    | cons x xs =>
      have hx : x.conf ≤ d.conf := (List.pairwise_cons.mp h).1 x (by simp)
      simp [insertByConf, hx]

/-- If every same-class member of `l` has a defined IoU with `best` of at
most the threshold, pruning keeps all of `l`. -/
theorem pruneSameClass_id {thr : ℚ} {best : Detection} {l : List Detection}
    (h : ∀ d ∈ l, d.className = best.className →
      ∃ v, computeIou d.bbox best.bbox = some v ∧ v ≤ thr) :
    pruneSameClass thr best l = some l := by
  induction l with
  | nil => rfl
  | cons d ds ih =>
    have hds := ih (fun x hx => h x (List.mem_cons_of_mem _ hx))
    simp only [pruneSameClass]
    by_cases hc : d.className = best.className
    · obtain ⟨v, hv, hle⟩ := h d (by simp) hc
      simp [hc, hv, hds, hle]
    · simp [hc, hds]

/-- On a pairwise non-overlapping list the greedy loop keeps everything. -/
theorem nmsLoop_id {thr : ℚ} :
    ∀ {fuel : Nat} {l : List Detection}, l.length ≤ fuel →
      l.Pairwise (fun a b => b.className = a.className →
        ∃ v, computeIou b.bbox a.bbox = some v ∧ v ≤ thr) →
      nmsLoop thr fuel l = some l := by
  intro fuel
  induction fuel with
  | zero =>
    intro l hlen _
    have : l = [] := List.eq_nil_of_length_eq_zero (Nat.le_zero.mp hlen)
    subst this; rfl
  | succ fuel ih =>
    intro l hlen hpw
    cases l with
    | nil => rfl
    | cons best rest =>
      have hhead := (List.pairwise_cons.mp hpw).1
      have htail := (List.pairwise_cons.mp hpw).2
      have hprune : pruneSameClass thr best rest = some rest :=
        pruneSameClass_id (fun d hd hc => hhead d hd hc)
      have hrec : nmsLoop thr fuel rest = some rest :=
        ih (Nat.le_of_succ_le_succ hlen) htail
      simp [nmsLoop, hprune, hrec]

/-- C9 counterexample: two detections of different classes (hence trivially
satisfying "no two same-class detections overlap") given in
confidence-ascending order.  `removeDuplicates` sorts by confidence first,
so the output is NOT the input unchanged: the order is reversed. -/
theorem removeDuplicates_reorders_nonoverlapping_input :
    ([⟨['a'], ⟨0, 0, 1, 1⟩, 1/2⟩, ⟨['b'], ⟨5, 5, 6, 6⟩, 9/10⟩] :
        List Detection).Pairwise
      (fun a b => a.className = b.className →
        ∃ v, computeIou a.bbox b.bbox = some v ∧
          computeIou b.bbox a.bbox = some v ∧ v ≤ (7/10 : ℚ)) ∧
    removeDuplicates
        [⟨['a'], ⟨0, 0, 1, 1⟩, 1/2⟩, ⟨['b'], ⟨5, 5, 6, 6⟩, 9/10⟩] (7/10) =
      some [⟨['b'], ⟨5, 5, 6, 6⟩, 9/10⟩, ⟨['a'], ⟨0, 0, 1, 1⟩, 1/2⟩] ∧
    removeDuplicates
        [⟨['a'], ⟨0, 0, 1, 1⟩, 1/2⟩, ⟨['b'], ⟨5, 5, 6, 6⟩, 9/10⟩] (7/10) ≠
      some [⟨['a'], ⟨0, 0, 1, 1⟩, 1/2⟩, ⟨['b'], ⟨5, 5, 6, 6⟩, 9/10⟩] := by
  refine ⟨?_, ?_, ?_⟩
  · refine List.Pairwise.cons ?_ (List.Pairwise.cons (by simp) List.Pairwise.nil)
    intro b hb hcls
    simp only [List.mem_singleton] at hb
    subst hb
    exact absurd hcls (by decide)
  · norm_num [removeDuplicates, sortByConfDesc, insertByConf, nmsLoop,
      pruneSameClass, computeIou]
  · norm_num [removeDuplicates, sortByConfDesc, insertByConf, nmsLoop,
      pruneSameClass, computeIou]

/-- C9 amended: on input whose same-class pairs all have defined IoU at most
the threshold, `removeDuplicates` returns exactly the input detections
stably sorted by descending confidence; when the input is already sorted by
non-increasing confidence it is returned unchanged. -/
theorem removeDuplicates_nonoverlapping_sorted (dets : List Detection) (thr : ℚ)
    (h : dets.Pairwise (fun a b => a.className = b.className →
      ∃ v, computeIou a.bbox b.bbox = some v ∧
        computeIou b.bbox a.bbox = some v ∧ v ≤ thr)) :
    removeDuplicates dets thr = some (sortByConfDesc dets) ∧
    (dets.Pairwise (fun a b => b.conf ≤ a.conf) →
      removeDuplicates dets thr = some dets) := by
  have hsym : Symmetric (fun a b : Detection => a.className = b.className →
      ∃ v, computeIou a.bbox b.bbox = some v ∧
        computeIou b.bbox a.bbox = some v ∧ v ≤ thr) := by
    intro a b hab hcls
    obtain ⟨v, h1, h2, hle⟩ := hab hcls.symm
    exact ⟨v, h2, h1, hle⟩
  have hperm : (sortByConfDesc dets).Perm dets := sortByConfDesc_perm dets
  have hpw : (sortByConfDesc dets).Pairwise (fun a b =>
      a.className = b.className →
        ∃ v, computeIou a.bbox b.bbox = some v ∧
          computeIou b.bbox a.bbox = some v ∧ v ≤ thr) :=
    (hperm.pairwise_iff (fun {x y} hxy => hsym hxy)).mpr h
  have hlen : (sortByConfDesc dets).length ≤ dets.length :=
    le_of_eq (hperm.length_eq)
  have hmain : removeDuplicates dets thr = some (sortByConfDesc dets) :=
    nmsLoop_id hlen (hpw.imp (fun {a b} hab hcls => by
      obtain ⟨v, h1, h2, hle⟩ := hab hcls.symm
      exact ⟨v, h2, hle⟩))
  refine ⟨hmain, fun hsorted => ?_⟩
  rw [hmain, sortByConfDesc_eq_self hsorted]

/-- Witness for the amended C9 theorem at a concrete, already-sorted,
non-overlapping input: the list comes back unchanged. -/
theorem removeDuplicates_nonoverlapping_sorted_witness :
    removeDuplicates
        [⟨['b'], ⟨5, 5, 6, 6⟩, 9/10⟩, ⟨['a'], ⟨0, 0, 1, 1⟩, 1/2⟩] (7/10) =
      some [⟨['b'], ⟨5, 5, 6, 6⟩, 9/10⟩, ⟨['a'], ⟨0, 0, 1, 1⟩, 1/2⟩] := by
  have hpw : ([⟨['b'], ⟨5, 5, 6, 6⟩, 9/10⟩, ⟨['a'], ⟨0, 0, 1, 1⟩, 1/2⟩] :
      List Detection).Pairwise
      (fun a b => a.className = b.className →
        ∃ v, computeIou a.bbox b.bbox = some v ∧
          computeIou b.bbox a.bbox = some v ∧ v ≤ (7/10 : ℚ)) := by
    refine List.Pairwise.cons ?_ (List.Pairwise.cons (by simp) List.Pairwise.nil)
    intro b hb hcls
    simp only [List.mem_singleton] at hb
    subst hb
    exact absurd hcls (by decide)
  have hsorted : ([⟨['b'], ⟨5, 5, 6, 6⟩, 9/10⟩, ⟨['a'], ⟨0, 0, 1, 1⟩, 1/2⟩] :
      List Detection).Pairwise (fun a b => b.conf ≤ a.conf) := by
    refine List.Pairwise.cons ?_ (List.Pairwise.cons (by simp) List.Pairwise.nil)
    intro b hb
    simp only [List.mem_singleton] at hb
    subst hb
    norm_num
  exact (removeDuplicates_nonoverlapping_sorted
    [⟨['b'], ⟨5, 5, 6, 6⟩, 9/10⟩, ⟨['a'], ⟨0, 0, 1, 1⟩, 1/2⟩] (7/10) hpw).2 hsorted

/-! ## `ImageCache` (app/services/ingester/handlers/image_handler.py)

The in-memory `self.cache` dict is an insertion-ordered association list
(CPython dict order); the persisted `descriptions.json` file is modelled as
holding the JSON object it stores (`none` = file absent).  `json.dump` and
`json.load` of the Python standard library are external collaborators,
modelled as the identity on string-to-string mappings. -/

/-- Python `dict` assignment `m[k] = v`: overwrite in place when the key
exists (keeping its position), else append at the end. -/
def dictSet (k v : PyStr) : List (PyStr × PyStr) → List (PyStr × PyStr)
  | [] => [(k, v)]
  | (k', v') :: rest =>
    if k' = k then (k, v) :: rest else (k', v') :: dictSet k v rest

/-- Python `dict.get(k)`. -/
def dictGet (k : PyStr) : List (PyStr × PyStr) → Option PyStr
  | [] => none
  | (k', v') :: rest => if k' = k then some v' else dictGet k rest

/-- The cache object: in-memory dict plus the persisted file it is backed
by. -/
structure ImageCache where
  cache : List (PyStr × PyStr)
  file : Option (List (PyStr × PyStr))
deriving DecidableEq, Repr

/-- `ImageCache._loadCache`: parse the persisted file, `{}` when absent
(the `except` branch returning `{}` on a malformed file cannot fire in this
model, where the file stores a well-formed mapping). -/
def loadCache : Option (List (PyStr × PyStr)) → List (PyStr × PyStr)
  | some m => m
  | none => []

/-- `ImageCache.__init__` pointed at a given persisted file. -/
def mkImageCache (file : Option (List (PyStr × PyStr))) : ImageCache :=
  ⟨loadCache file, file⟩

/-- `ImageCache._saveCache`: full rewrite of the persisted file with the
current in-memory dict. -/
def saveCache (c : ImageCache) : ImageCache :=
  { c with file := some c.cache }

/-- `ImageCache.get`. -/
def cacheGet (c : ImageCache) (imageHash : PyStr) : Option PyStr :=
  dictGet imageHash c.cache

/-- `ImageCache.set`: update the dict, then `_saveCache`. -/
def cacheSet (c : ImageCache) (imageHash description : PyStr) : ImageCache :=
  saveCache { c with cache := dictSet imageHash description c.cache }

/-- The cache states reachable in a process: construction from an arbitrary
persisted file followed by any sequence of `set` calls. -/
inductive CacheReachable : ImageCache → Prop
  | init (file : Option (List (PyStr × PyStr))) :
      CacheReachable (mkImageCache file)
  | set (c : ImageCache) (h v : PyStr) :
      CacheReachable c → CacheReachable (cacheSet c h v)

theorem dictGet_dictSet_self (k v : PyStr) (m : List (PyStr × PyStr)) :
    dictGet k (dictSet k v m) = some v := by
  induction m with
  | nil => simp [dictSet, dictGet]
  | cons kv rest ih =>
    obtain ⟨k', v'⟩ := kv
    by_cases h : k' = k
    · simp [dictSet, dictGet, h]
    · simp [dictSet, dictGet, h, ih]

/-- Every reachable cache state is exactly reproduced by a fresh cache
constructed over its persisted file. -/
theorem cacheReachable_reload {c : ImageCache} (hr : CacheReachable c) :
    mkImageCache c.file = c := by
  induction hr with
  | init file => rfl
  | set c h v _ _ => rfl

/-- C5: `set(h, v)` followed by `get(h)` yields `v`, and a freshly
constructed `ImageCache` over the persisted file of any reachable cache
state answers every `get` exactly as the original does (so every previously
set entry, at its last-set value, survives the reload). -/
theorem imageCache_roundtrip (c : ImageCache) (h v : PyStr)
    (hr : CacheReachable c) :
    cacheGet (cacheSet c h v) h = some v ∧
    (∀ k, cacheGet (mkImageCache c.file) k = cacheGet c k) := by
  constructor
  · exact dictGet_dictSet_self h v c.cache
  · intro k
    rw [cacheReachable_reload hr]

/-- Witness for C5 at a concrete state: one `set` over a fresh cache with no
persisted file. -/
theorem imageCache_roundtrip_witness :
    cacheGet (cacheSet (cacheSet (mkImageCache none) ['h'] ['v'])
        ['h'] ['w']) ['h'] = some ['w'] ∧
    (∀ k, cacheGet (mkImageCache (cacheSet (mkImageCache none)
        ['h'] ['v']).file) k = cacheGet (cacheSet (mkImageCache none)
        ['h'] ['v']) k) :=
  ⟨(imageCache_roundtrip (cacheSet (mkImageCache none) ['h'] ['v'])
      ['h'] ['w']
      (CacheReachable.set _ ['h'] ['v'] (CacheReachable.init none))).1,
   (imageCache_roundtrip (cacheSet (mkImageCache none) ['h'] ['v'])
      ['h'] ['w']
      (CacheReachable.set _ ['h'] ['v'] (CacheReachable.init none))).2⟩

/-! ## Concurrency of `ImageCache._saveCache` (C4)

`_saveCache` runs `open(self.cacheFile, 'w')` (truncate) followed by
`json.dump(self.cache, f, ...)`, which writes the serialized object through
the file handle in several chunks.  Neither `ImageCache.set` nor
`_saveCache` acquires any lock (no `threading.Lock` appears anywhere in the
repository), and `ImageHandler._processImageAsync` calls `cache.set` from
coordinator tasks running on worker-pool threads, so the chunk writes of
two concurrent `_saveCache` calls to the same file may interleave
arbitrarily.  The model below gives each thread its own file offset
(POSIX `open` semantics) and lets a schedule interleave the two event
sequences. -/

/-- Simplified `json.dump` serialization of the cache dict (separators and
quoting as produced for brace-free ASCII keys and values; the exact
rendering is irrelevant, only that both threads write their own full
serialization). -/
def quoteStr (s : PyStr) : PyStr := '"' :: (s ++ ['"'])

/-- One `"key": "value"` entry. -/
def serializeEntry (kv : PyStr × PyStr) : PyStr :=
  quoteStr kv.1 ++ [':', ' '] ++ quoteStr kv.2

/-- The serialized JSON object for a cache dict. -/
def serializeCache (m : List (PyStr × PyStr)) : PyStr :=
  '\x7b' :: (List.intercalate [',', ' '] (m.map serializeEntry) ++ ['\x7d'])

/-- The shared persisted file plus each writer thread's private offset. -/
structure FsState where
  file : PyStr
  offA : Nat
  offB : Nat
deriving DecidableEq, Repr

/-- One event of a `_saveCache` execution: opening the file with mode `'w'`
(truncates the shared file, resets the opener's offset) or writing one
chunk at the thread's current offset. -/
inductive SaveEvent
  | openA : SaveEvent
  | openB : SaveEvent
  | writeA : PyStr → SaveEvent
  | writeB : PyStr → SaveEvent
deriving DecidableEq, Repr, BEq

/-- POSIX write-at-offset: overlay `s` at `off`, zero-padding any gap. -/
def writeAt (file : PyStr) (off : Nat) (s : PyStr) : PyStr :=
  (file.take off ++ List.replicate (off - file.length) '\x00') ++ s ++
    file.drop (off + s.length)

def fsStep (s : FsState) : SaveEvent → FsState
  | .openA => { s with file := [], offA := 0 }
  | .openB => { s with file := [], offB := 0 }
  | .writeA c => { s with file := writeAt s.file s.offA c,
                          offA := s.offA + c.length }
  | .writeB c => { s with file := writeAt s.file s.offB c,
                          offB := s.offB + c.length }

def runSchedule (init : FsState) (evs : List SaveEvent) : FsState :=
  evs.foldl fsStep init

/-- The event sequence of thread A's `_saveCache`, writing its serialized
cache in the given chunks. -/
def saveEventsA (chunks : List PyStr) : List SaveEvent :=
  SaveEvent.openA :: chunks.map SaveEvent.writeA

/-- The event sequence of thread B's `_saveCache`. -/
def saveEventsB (chunks : List PyStr) : List SaveEvent :=
  SaveEvent.openB :: chunks.map SaveEvent.writeB

/-- `s` is an interleaving of `as` and `bs` (each kept in order). -/
def isInterleaveOf : List SaveEvent → List SaveEvent → List SaveEvent → Bool
  | [], bs, s => bs == s
  | as, [], s => as == s
  | _ :: _, _ :: _, [] => false
  | a :: as, b :: bs, c :: cs =>
    (c == a && isInterleaveOf as (b :: bs) cs) ||
    (c == b && isInterleaveOf (a :: as) bs cs)

/-- C4: `ImageCache.set` / `_saveCache` hold no lock, so the chunked file
writes of two concurrent `_saveCache` executions can interleave.  The
schedule below is a genuine interleaving of the event sequences of the two
executions, yet it leaves the persisted file equal to neither serialized
cache state — a torn store, contradicting the claim that writes
are mutually exclusive and every persisted snapshot is a consistent
mapping. -/
theorem saveCache_concurrent_write_tears :
    isInterleaveOf
        (saveEventsA [(serializeCache [(['h'], ['1'])]).take 5,
                      (serializeCache [(['h'], ['1'])]).drop 5])
        (saveEventsB [(serializeCache [(['h'], ['1']), (['g'], ['2'])]).take 5,
                      (serializeCache [(['h'], ['1']), (['g'], ['2'])]).drop 5])
        [SaveEvent.openA, SaveEvent.openB,
         SaveEvent.writeB ((serializeCache [(['h'], ['1']), (['g'], ['2'])]).take 5),
         SaveEvent.writeB ((serializeCache [(['h'], ['1']), (['g'], ['2'])]).drop 5),
         SaveEvent.writeA ((serializeCache [(['h'], ['1'])]).take 5),
         SaveEvent.writeA ((serializeCache [(['h'], ['1'])]).drop 5)] = true ∧
    (runSchedule ⟨[], 0, 0⟩
        [SaveEvent.openA, SaveEvent.openB,
         SaveEvent.writeB ((serializeCache [(['h'], ['1']), (['g'], ['2'])]).take 5),
         SaveEvent.writeB ((serializeCache [(['h'], ['1']), (['g'], ['2'])]).drop 5),
         SaveEvent.writeA ((serializeCache [(['h'], ['1'])]).take 5),
         SaveEvent.writeA ((serializeCache [(['h'], ['1'])]).drop 5)]).file ≠
      serializeCache [(['h'], ['1'])] ∧
    (runSchedule ⟨[], 0, 0⟩
        [SaveEvent.openA, SaveEvent.openB,
         SaveEvent.writeB ((serializeCache [(['h'], ['1']), (['g'], ['2'])]).take 5),
         SaveEvent.writeB ((serializeCache [(['h'], ['1']), (['g'], ['2'])]).drop 5),
         SaveEvent.writeA ((serializeCache [(['h'], ['1'])]).take 5),
         SaveEvent.writeA ((serializeCache [(['h'], ['1'])]).drop 5)]).file ≠
      serializeCache [(['h'], ['1']), (['g'], ['2'])] := by
  refine ⟨by decide, by decide, by decide⟩

/-! ## `TableHandler._normalizeData` / `_buildResult`
(app/services/ingester/handlers/table_handler.py)

Rows are typed `List (List PyStr)`, so the `isinstance` guards of the Python
code (which replace non-list rows and non-string cells) are always in their
list/string branch. -/

/-- Running maximum of the row widths, as computed by the loop in
`_normalizeData` (`maxCols` starts at 0 and is bumped whenever a longer row
is seen). -/
def maxRowLen (data : List (List PyStr)) : Nat :=
  (data.map List.length).foldl max 0

/-- `TableHandler._normalizeData`: strip every cell, then right-pad every
row with empty strings to the maximum row width. -/
def normalizeData (data : List (List PyStr)) : List (List PyStr) :=
  if data = [] then []
  else
    let cleaned := data.map (fun row => row.map pyStrip)
    let maxCols := (cleaned.map List.length).foldl max 0
    if maxCols = 0 then cleaned
    else cleaned.map (fun row => row ++ List.replicate (maxCols - row.length) [])

/-- One markdown table line `| c1 | c2 | ... |`. -/
def mdRow (row : List PyStr) : PyStr :=
  ['|', ' '] ++ List.intercalate [' ', '|', ' '] row ++ [' ', '|']

/-- `TableHandler._toMarkdown`. -/
def toMarkdown (data : List (List PyStr)) : PyStr :=
  match data with
  | [] => []
  | headerRow :: rest =>
    List.intercalate ['\n']
      ([mdRow headerRow,
        mdRow (List.replicate headerRow.length ['-', '-', '-'])] ++
        rest.map (fun row =>
          mdRow (row ++ List.replicate (headerRow.length - row.length) [])))

/-- The normalized table record returned by `_buildResult` (the `bbox`
parameter of the Python function is unused and not stored). -/
structure TableResult where
  ttype : PyStr
  rows : Nat
  columns : Nat
  data : List (List PyStr)
  markdown : PyStr
  source : PyStr
deriving DecidableEq, Repr

/-- `TableHandler._buildResult`. -/
def buildResult (data : List (List PyStr)) (source : PyStr) : TableResult :=
  let normalized := normalizeData data
  { ttype := ("table").toList
    rows := normalized.length
    columns := (normalized.map List.length).foldl max 0
    data := normalized
    markdown := toMarkdown normalized
    source := source }

theorem foldl_max_init_le (l : List Nat) (a : Nat) : a ≤ l.foldl max a := by
  induction l generalizing a with
  | nil => exact le_refl a
  | cons x xs ih => exact le_trans (le_max_left a x) (ih (max a x))

theorem mem_le_foldl_max {l : List Nat} {x : Nat} (h : x ∈ l) (a : Nat) :
    x ≤ l.foldl max a := by
  induction l generalizing a with
  | nil => simp at h
  | cons y ys ih =>
    rcases List.mem_cons.mp h with rfl | h
    · exact le_trans (le_max_right a x) (foldl_max_init_le ys (max a x))
    · exact ih h (max a y)

theorem foldl_max_replicate (c : Nat) :
    ∀ (n : Nat) (a : Nat), (List.replicate n c).foldl max a =
      if n = 0 then a else max a c := by
  intro n
  induction n with
  | zero => intro a; simp
  | succ n ih =>
    intro a
    simp only [List.replicate_succ, List.foldl_cons, ih (max a c)]
    by_cases hn : n = 0
    · simp [hn]
    · simp [hn, max_assoc]

theorem rowLen_le_maxRowLen {data : List (List PyStr)} {r : List PyStr}
    (h : r ∈ data) : r.length ≤ maxRowLen data :=
  mem_le_foldl_max (List.mem_map_of_mem List.length h) 0

/-- Pointwise description of `_normalizeData`: every row is its stripped
cells padded with empty strings to the maximum row width. -/
theorem normalizeData_spec (data : List (List PyStr)) :
    normalizeData data = data.map (fun r =>
      r.map pyStrip ++ List.replicate (maxRowLen data - r.length) []) := by
  unfold normalizeData
  by_cases hdata : data = []
  · simp [hdata]
  · rw [if_neg hdata]
    have hlen : ((data.map (fun row => row.map pyStrip)).map List.length) =
        data.map List.length := by
      simp [List.map_map, Function.comp]
    simp only [hlen]
    by_cases hmax : (data.map List.length).foldl max 0 = 0
    · rw [if_pos hmax]
      refine List.map_congr_left ?_
      intro r hr
      have : r.length ≤ 0 := hmax ▸ rowLen_le_maxRowLen hr
      have hr0 : r.length = 0 := Nat.le_zero.mp this
      rw [List.eq_nil_of_length_eq_zero hr0]
      simp [maxRowLen, hmax]
    · rw [if_neg hmax]
      rw [List.map_map]
      refine List.map_congr_left ?_
      intro r _
      simp [Function.comp, maxRowLen]

/-- C8: table normalization pads ragged rows with empty strings to the
maximum row width: `rows` is the number of input rows, `columns` the
maximum input row length, and every row is right-padded (its cells
stripped) to that width.  The concrete instance of the claim,
`[[a,b,c],[d]] -> rows 2, columns 3, grid [[a,b,c],[d,"",""]]`, is included
as the final conjunct. -/
theorem buildResult_pads_ragged_rows (data : List (List PyStr)) (source : PyStr) :
    (buildResult data source).rows = data.length ∧
    (buildResult data source).columns = maxRowLen data ∧
    (buildResult data source).data = data.map (fun r =>
      r.map pyStrip ++ List.replicate (maxRowLen data - r.length) []) ∧
    ((buildResult [[['a'], ['b'], ['c']], [['d']]] []).rows = 2 ∧
     (buildResult [[['a'], ['b'], ['c']], [['d']]] []).columns = 3 ∧
     (buildResult [[['a'], ['b'], ['c']], [['d']]] []).data =
       [[['a'], ['b'], ['c']], [['d'], [], []]]) := by
  refine ⟨?_, ?_, ?_, by decide, by decide, by decide⟩
  · simp [buildResult, normalizeData_spec]
  · simp only [buildResult, normalizeData_spec]
    by_cases hdata : data = []
    · simp [hdata, maxRowLen]
    · have hmap : ((data.map (fun r =>
          r.map pyStrip ++ List.replicate (maxRowLen data - r.length) [])).map
            List.length) = List.replicate data.length (maxRowLen data) := by
        rw [List.map_map]
        rw [show data.length = (data.map (fun r =>
          (r.map pyStrip ++ List.replicate (maxRowLen data - r.length) []).length)).length
          by simp]
        refine List.eq_replicate_of_mem ?_
        intro x hx
        obtain ⟨r, hr, rfl⟩ := List.mem_map.mp hx
        simp only [Function.comp_apply, List.length_append, List.length_map,
          List.length_replicate]
        exact Nat.add_sub_cancel' (rowLen_le_maxRowLen hr)
      rw [hmap, foldl_max_replicate]
      simp [hdata]
  · simp [buildResult, normalizeData_spec]

/-! ## `FormulaHandler` (app/services/ingester/handlers/formula_handler.py)

The pptx shape, the generative-AI client and `json.loads` are external
collaborators: the shape is a record of the attributes the handler reads,
the client is a pair of response oracles (`none` = the call raised), and
JSON parsing is an oracle `parse` (`none` = `json.loads` raised).  The
repository stubs `_loadXslt`, `_ommlToLatex` and `_extractOmmlFromSlide`
to constant `None` results; they are embedded exactly as written. -/

structure PptxShape where
  hasElement : Bool
  elementXml : PyStr
  hasTextFrame : Bool
  text : PyStr
  imageBlob : Option PyStr
deriving DecidableEq, Repr

/-- The JSON object fields the formula handler reads from a parsed AI
response (fields that are merely stored and never read are omitted). -/
structure JsonF where
  latex : Option PyStr
deriving DecidableEq, Repr

/-- The generative-AI client, reduced to its two chat entry points used by
the formula handler; `none` models the call raising. -/
structure LlmClient where
  formulaChat : PyStr → Option PyStr
  textChat : PyStr → Option PyStr

/-- `FormulaHandler._extractOmml`: the shape's raw XML when it contains
embedded math markup. -/
def extractOmml (shape : PptxShape) : Option PyStr :=
  if shape.hasElement then
    if containsSub (("m:oMath").toList) shape.elementXml then
      some shape.elementXml
    else none
  else none

/-- `FormulaHandler._ommlToLatex`: stubbed in the source to `(None, None)`. -/
def ommlToLatex (_ : PyStr) : Option PyStr × Option PyStr := (none, none)

/-- `FormulaHandler._extractOmmlFromSlide`: stubbed in the source to
`None`. -/
def extractOmmlFromSlide (_ : PyStr) (_ : Nat) : Option PyStr := none

/-- `FormulaHandler._normalizeTextEquation`. -/
def normalizeTextEquation (text : PyStr) : PyStr := pyStrip text

/-- The result dict of `_extractFormula` / `_extractFormulaFromText`
(payload fields that callers never read are omitted). -/
structure ExtractRes where
  latex : Option PyStr
  confidence : ℚ
deriving DecidableEq, Repr

/-- `FormulaHandler._extractFormula`: equation OCR through the AI client;
never raises (all failures collapse to a no-latex, zero-confidence
result). -/
def extractFormula (parse : PyStr → Option JsonF) (llm : LlmClient)
    (imageBytes : PyStr) : ExtractRes :=
  match llm.formulaChat imageBytes with
  | none => { latex := none, confidence := 0 }
  | some response =>
    match parse response with
    | none => { latex := none, confidence := 0 }
    | some parsed =>
      { latex := parsed.latex
        confidence :=
          if pyTruthy parsed.latex && pyTruthy (parsed.latex.map pyStrip)
          then 95/100 else 0 }

/-- The strong markers of `FormulaHandler.simpleTextToLatex`. -/
def strongChars : List Char := ['=', '≤', '≥', '≈', '≠', '^', '√', '∑', '∫', '/']

/-- The replacement table of `simpleTextToLatex`, in dict insertion order. -/
def replPairs : List (Char × PyStr) :=
  [('−', ['-']), ('–', ['-']), ('×', ['*']), ('·', ("\\cdot ").toList),
   ('÷', ['/']), ('≤', ("\\leq ").toList), ('≥', ("\\geq ").toList),
   ('≠', ("\\neq ").toList), ('≈', ("\\approx ").toList),
   ('→', ("\\to ").toList), ('←', ("\\leftarrow ").toList),
   ('∞', ("\\infty ").toList)]

/-- `FormulaHandler.simpleTextToLatex`: heuristic text-to-LaTeX used as the
in-layer fallback of the text-inference layer. -/
def simpleTextToLatex (text : PyStr) : Option PyStr :=
  if text.isEmpty then none
  else if strongChars.any (fun c => text.contains c) then
    some (pyStrip (replPairs.foldl (fun s kv => charReplace kv.1 kv.2 s) text))
  else none

/-- `FormulaHandler._extractFormulaFromText`: ask the AI client to infer
LaTeX from text (confidence 0.9 on success); on a raised call, an
unparseable response or a falsy latex field, fall back to
`simpleTextToLatex` with confidence 0.6 (0.0 when that also fails). -/
def extractFormulaFromText (parse : PyStr → Option JsonF) (llm : LlmClient)
    (text : PyStr) : ExtractRes :=
  match llm.textChat text with
  | none =>
    let latexH := simpleTextToLatex text
    { latex := latexH, confidence := if pyTruthy latexH then 6/10 else 0 }
  | some response =>
    let latex : Option PyStr :=
      match parse response with
      | none => none
      | some parsed => parsed.latex
    if pyTruthy latex then { latex := latex, confidence := 9/10 }
    else
      let latexH := simpleTextToLatex text
      { latex := latexH, confidence := if pyTruthy latexH then 6/10 else 0 }

/-- The result dict of `handlePptx` / `handlePdf`.  Keys absent from a
given return site are `none`. -/
structure FormulaResult where
  ftype : Option PyStr
  latex : Option PyStr
  mathml : Option PyStr
  omml : Option PyStr
  source : PyStr
  confidence : ℚ
  error : Option PyStr
deriving DecidableEq, Repr

/-- The final fall-through record of `handlePptx`. -/
def failedFormulaResult : FormulaResult :=
  { ftype := none, latex := none, mathml := none, omml := none
    source := ("failed").toList, confidence := 0
    error := some (("No extraction method succeeded").toList) }

/-- Layer 1 of `handlePptx`: shape-local OMML (returns `none` to fall
through). -/
def pptxLayer1 (shape : PptxShape) : Option FormulaResult :=
  match extractOmml shape with
  | some o =>
    let lm := ommlToLatex o
    if pyTruthy lm.1 || pyTruthy lm.2 then
      some { ftype := some (("formula").toList), latex := lm.1,
             mathml := lm.2, omml := some o, source := ("omml").toList,
             confidence := if pyTruthy lm.1 then 1 else 8/10, error := none }
    else none
  | none => none

/-- Layer 2a of `handlePptx`: slide-level OMML search. -/
def pptxLayer2a (filePath : PyStr) (slideNum : Nat) (omml : Option PyStr) :
    Option FormulaResult :=
  if ¬ (pyTruthy omml) ∧ ¬ filePath.isEmpty ∧ slideNum ≠ 0 then
    match extractOmmlFromSlide filePath slideNum with
    | some ommlSlide =>
      let lm := ommlToLatex ommlSlide
      if pyTruthy lm.1 || pyTruthy lm.2 then
        some { ftype := some (("formula").toList), latex := lm.1,
               mathml := lm.2, omml := some ommlSlide,
               source := ("omml_slide").toList,
               confidence := if pyTruthy lm.1 then 1 else 8/10, error := none }
      else none
    | none => none
  else none

/-- Layer 2b of `handlePptx`: text-to-LaTeX through the AI client. -/
def pptxLayer2b (parse : PyStr → Option JsonF) (llm : Option LlmClient)
    (shape : PptxShape) : Option FormulaResult :=
  match llm with
  | none => none
  | some l =>
    if shape.hasTextFrame then
      let rawText := normalizeTextEquation (pyStrip shape.text)
      if rawText.isEmpty then none
      else
        let textRes := extractFormulaFromText parse l rawText
        if pyTruthy textRes.latex then
          some { ftype := some (("formula").toList), latex := textRes.latex,
                 mathml := none, omml := none, source := ("text_llm").toList,
                 confidence := textRes.confidence, error := none }
        else none
    else none

/-- Layer 2c of `handlePptx`: equation OCR on the shape's image (`none`
when there is no AI client, or accessing `shape.image` raises). -/
def pptxLayer2c (parse : PyStr → Option JsonF) (llm : Option LlmClient)
    (shape : PptxShape) : Option FormulaResult :=
  match llm with
  | none => none
  | some l =>
    match shape.imageBlob with
    | none => none
    | some imageBytes =>
      let res := extractFormula parse l imageBytes
      some { ftype := some (("formula").toList), latex := res.latex,
             mathml := none, omml := none, source := ("ocr").toList,
             confidence := res.confidence,
             error := if pyTruthy res.latex then none
                      else some (("no_latex").toList) }

/-- `FormulaHandler.handlePptx`: the ordered fallback chain; the first
layer that returns wins, else the failed record. -/
def handlePptxFormula (parse : PyStr → Option JsonF) (llm : Option LlmClient)
    (shape : PptxShape) (slideNum : Nat) (filePath : PyStr) : FormulaResult :=
  match pptxLayer1 shape with
  | some r => r
  | none =>
    match pptxLayer2a filePath slideNum (extractOmml shape) with
    | some r => r
    | none =>
      match pptxLayer2b parse llm shape with
      | some r => r
      | none =>
        match pptxLayer2c parse llm shape with
        | some r => r
        | none => failedFormulaResult

/-- `FormulaHandler.handlePdf`: `render` models
`page.get_pixmap(...).tobytes("png")` of the external geometry reader
(`Except.error e` = the rendering raised with message `e`). -/
def handlePdfFormula (parse : PyStr → Option JsonF) (llm : Option LlmClient)
    (render : Except PyStr PyStr) : FormulaResult :=
  match render with
  | .error e =>
    { ftype := none, latex := none, mathml := none, omml := none
      source := ("pdf_error").toList, confidence := 0, error := some e }
  | .ok imgBytes =>
    match llm with
    | none =>
      { ftype := none, latex := none, mathml := none, omml := none
        source := ("ocr_no_llm").toList, confidence := 0, error := none }
    | some l =>
      let res := extractFormula parse l imgBytes
      { ftype := some (("formula").toList), latex := res.latex,
        mathml := none, omml := none, source := ("ocr").toList,
        confidence := res.confidence,
        error := if pyTruthy res.latex then none
                 else some (("no_latex").toList) }

/-- With `_ommlToLatex` stubbed to `(None, None)`, layer 1 can never
return. -/
theorem pptxLayer1_eq_none (shape : PptxShape) : pptxLayer1 shape = none := by
  unfold pptxLayer1
  cases extractOmml shape with
  | none => rfl
  | some o => simp [ommlToLatex, pyTruthy]

/-- With `_extractOmmlFromSlide` stubbed to `None`, layer 2a can never
return. -/
theorem pptxLayer2a_eq_none (filePath : PyStr) (slideNum : Nat)
    (omml : Option PyStr) : pptxLayer2a filePath slideNum omml = none := by
  unfold pptxLayer2a
  split
  · rfl
  · rfl

/-- `handlePptx` reduces to the text layer followed by the OCR layer. -/
theorem handlePptxFormula_eq (parse : PyStr → Option JsonF)
    (llm : Option LlmClient) (shape : PptxShape) (slideNum : Nat)
    (filePath : PyStr) :
    handlePptxFormula parse llm shape slideNum filePath =
      match pptxLayer2b parse llm shape with
      | some r => r
      | none =>
        match pptxLayer2c parse llm shape with
        | some r => r
        | none => failedFormulaResult := by
  unfold handlePptxFormula
  rw [pptxLayer1_eq_none, pptxLayer2a_eq_none]

theorem pptxLayer2b_source {parse : PyStr → Option JsonF}
    {llm : Option LlmClient} {shape : PptxShape} {r : FormulaResult}
    (h : pptxLayer2b parse llm shape = some r) :
    r.source = ("text_llm").toList := by
  unfold pptxLayer2b at h
  cases llm with
  | none => exact absurd h (by simp)
  | some l =>
    by_cases ht : shape.hasTextFrame
    · simp only [ht, if_true] at h
      split at h
      · exact absurd h (by simp)
      · split at h
        · injection h with h
          rw [← h]
        · exact absurd h (by simp)
    · simp [ht] at h

theorem pptxLayer2b_confidence {parse : PyStr → Option JsonF}
    {llm : Option LlmClient} {shape : PptxShape} {r : FormulaResult}
    (h : pptxLayer2b parse llm shape = some r) :
    ∃ l rawText, llm = some l ∧
      pyTruthy (extractFormulaFromText parse l rawText).latex = true ∧
      r.confidence = (extractFormulaFromText parse l rawText).confidence := by
  unfold pptxLayer2b at h
  cases llm with
  | none => exact absurd h (by simp)
  | some l =>
    by_cases ht : shape.hasTextFrame
    · simp only [ht, if_true] at h
      split at h
      · exact absurd h (by simp)
      · split at h
        · next htruthy =>
          injection h with h
          exact ⟨l, normalizeTextEquation (pyStrip shape.text), rfl, htruthy,
            by rw [← h]⟩
        · exact absurd h (by simp)
    · simp [ht] at h

theorem pptxLayer2c_source {parse : PyStr → Option JsonF}
    {llm : Option LlmClient} {shape : PptxShape} {r : FormulaResult}
    (h : pptxLayer2c parse llm shape = some r) :
    r.source = ("ocr").toList := by
  unfold pptxLayer2c at h
  cases llm with
  | none => exact absurd h (by simp)
  | some l =>
    cases hb : shape.imageBlob with
    | none => rw [hb] at h; exact absurd h (by simp)
    | some b =>
      rw [hb] at h
      injection h with h
      rw [← h]

/-- When the text layer returns a truthy latex, the confidence is 0.9 (AI
response) or 0.6 (heuristic fallback), never anything else. -/
theorem extractFormulaFromText_confidence {parse : PyStr → Option JsonF}
    {llm : LlmClient} {text : PyStr}
    (h : pyTruthy (extractFormulaFromText parse llm text).latex = true) :
    (extractFormulaFromText parse llm text).confidence = 9/10 ∨
    (extractFormulaFromText parse llm text).confidence = 6/10 := by
  unfold extractFormulaFromText at h ⊢
  cases hc : llm.textChat text with
  | none =>
    simp only [hc] at h ⊢
    by_cases hh : pyTruthy (simpleTextToLatex text) = true
    · right; simp [hh]
    · exact absurd h hh
  | some response =>
    simp only [hc] at h ⊢
    by_cases hl : pyTruthy (match parse response with
        | none => none
        | some parsed => parsed.latex) = true
    · left; simp [hl]
    · simp only [Bool.not_eq_true] at hl
      simp only [hl, if_false] at h ⊢
      by_cases hh : pyTruthy (simpleTextToLatex text) = true
      · right; simp [hh]
      · exact absurd h hh

/-- C6 counterexample: a PDF formula region with every layer failing (no AI
client is available, so OCR — the only PDF layer — cannot run).  The code
returns source `"ocr_no_llm"` with a NULL error, not source `"failed"`
with a non-null error as the claim states. -/
theorem handlePdfFormula_all_fail_not_failed :
    handlePdfFormula (fun _ => none) none (Except.ok (("png").toList)) =
      { ftype := none, latex := none, mathml := none, omml := none
        source := ("ocr_no_llm").toList, confidence := 0, error := none } ∧
    ("ocr_no_llm").toList ≠ ("failed").toList :=
  ⟨rfl, by decide⟩

/-- C6 amended: `handlePptx` returns the failed record (null latex, source
`"failed"`, confidence 0, non-null error) exactly when the text layer and
the OCR layer both fall through (the OMML layers can never return, being
stubbed); `handlePdf` never uses source `"failed"` — in particular with no
AI client it returns null latex, source `"ocr_no_llm"`, confidence 0 and a
NULL error. -/
theorem formulaHandler_failed_record_amended :
    (∀ (parse : PyStr → Option JsonF) (llm : Option LlmClient)
        (shape : PptxShape) (slideNum : Nat) (filePath : PyStr),
      handlePptxFormula parse llm shape slideNum filePath =
          failedFormulaResult ↔
        (pptxLayer2b parse llm shape = none ∧
         pptxLayer2c parse llm shape = none)) ∧
    (∀ (parse : PyStr → Option JsonF) (llm : Option LlmClient)
        (render : Except PyStr PyStr),
      (handlePdfFormula parse llm render).source ≠ ("failed").toList) ∧
    (∀ (parse : PyStr → Option JsonF) (imgBytes : PyStr),
      handlePdfFormula parse none (Except.ok imgBytes) =
        { ftype := none, latex := none, mathml := none, omml := none
          source := ("ocr_no_llm").toList, confidence := 0, error := none }) := by
  refine ⟨?_, ?_, ?_⟩
  · intro parse llm shape slideNum filePath
    rw [handlePptxFormula_eq]
    constructor
    · intro h
      cases h2b : pptxLayer2b parse llm shape with
      | some r =>
        simp only [h2b] at h
        have hs := pptxLayer2b_source h2b
        rw [h] at hs
        exact absurd hs (by decide)
      | none =>
        simp only [h2b] at h
        cases h2c : pptxLayer2c parse llm shape with
        | some r =>
          simp only [h2c] at h
          have hs := pptxLayer2c_source h2c
          rw [h] at hs
          exact absurd hs (by decide)
        | none => exact ⟨rfl, rfl⟩
    · intro ⟨hb, hc⟩
      simp [hb, hc]
  · intro parse llm render
    cases render with
    | error e =>
      show ("pdf_error").toList ≠ ("failed").toList
      decide
    | ok b =>
      cases llm with
      | none =>
        show ("ocr_no_llm").toList ≠ ("failed").toList
        decide
      | some l =>
        show ("ocr").toList ≠ ("failed").toList
        decide
  · intro parse imgBytes
    rfl

/-- Witness for the amended C6 theorem at concrete inputs: a shape with no
text frame, no image and no AI client makes `handlePptx` return the failed
record, and a raised PDF rendering never yields source `"failed"`. -/
theorem formulaHandler_failed_record_amended_witness :
    handlePptxFormula (fun _ => none) none ⟨false, [], false, [], none⟩ 0 [] =
      failedFormulaResult ∧
    (handlePdfFormula (fun _ => none) none
        (Except.error (("boom").toList))).source ≠ ("failed").toList :=
  ⟨(formulaHandler_failed_record_amended.1 (fun _ => none) none
      ⟨false, [], false, [], none⟩ 0 []).mpr ⟨rfl, rfl⟩,
   formulaHandler_failed_record_amended.2.1 (fun _ => none) none
      (Except.error (("boom").toList))⟩

/-- C7 counterexample: a shape carrying the plain text `x = 5`, an AI
client whose text call raises, and a JSON parser that always fails.  The
in-layer heuristic `simpleTextToLatex` still produces LaTeX, so the
returned record has source `"text_llm"` but confidence 0.6, not 0.9. -/
theorem textLlm_heuristic_confidence_counterexample :
    (handlePptxFormula (fun _ => none) (some ⟨fun _ => none, fun _ => none⟩)
        ⟨false, [], true, ("x = 5").toList, none⟩ 1 []).source =
      ("text_llm").toList ∧
    (handlePptxFormula (fun _ => none) (some ⟨fun _ => none, fun _ => none⟩)
        ⟨false, [], true, ("x = 5").toList, none⟩ 1 []).confidence = 6/10 ∧
    (6/10 : ℚ) ≠ 9/10 := by
  refine ⟨rfl, rfl, by norm_num⟩

/-- C7 amended: the text-inference layer reports confidence 0.9 exactly
when the LaTeX was parsed from the AI response; records tagged
`"text_llm"` therefore carry confidence 0.9 (AI-produced LaTeX) or 0.6
(produced by the in-layer `simpleTextToLatex` heuristic), never anything
else. -/
theorem textLlm_confidence_amended :
    (∀ (parse : PyStr → Option JsonF) (llm : LlmClient) (text resp : PyStr)
        (j : JsonF),
      llm.textChat text = some resp → parse resp = some j →
        pyTruthy j.latex = true →
        extractFormulaFromText parse llm text = ⟨j.latex, 9/10⟩) ∧
    (∀ (parse : PyStr → Option JsonF) (llm : Option LlmClient)
        (shape : PptxShape) (slideNum : Nat) (filePath : PyStr),
      (handlePptxFormula parse llm shape slideNum filePath).source =
          ("text_llm").toList →
        (handlePptxFormula parse llm shape slideNum filePath).confidence =
            9/10 ∨
        (handlePptxFormula parse llm shape slideNum filePath).confidence =
            6/10) := by
  constructor
  · intro parse llm text resp j h1 h2 h3
    unfold extractFormulaFromText
    rw [h1]
    simp [h2, h3]
  · intro parse llm shape slideNum filePath hsrc
    rw [handlePptxFormula_eq] at hsrc ⊢
    cases h2b : pptxLayer2b parse llm shape with
    | some r =>
      simp only [h2b] at hsrc ⊢
      obtain ⟨l, rawText, hl, htruthy, hconf⟩ := pptxLayer2b_confidence h2b
      rw [hconf]
      exact extractFormulaFromText_confidence htruthy
    | none =>
      simp only [h2b] at hsrc ⊢
      cases h2c : pptxLayer2c parse llm shape with
      | some r =>
        simp only [h2c] at hsrc
        have hs := pptxLayer2c_source h2c
        rw [hs] at hsrc
        exact absurd hsrc (by decide)
      | none =>
        simp only [h2c] at hsrc
        exact absurd hsrc (by decide)

/-- Witness for the amended C7 theorem: a client whose text call returns a
response parsing to a non-empty latex yields confidence 0.9, and the
concrete `"text_llm"` record of the counterexample setup falls in the
allowed confidence set. -/
theorem textLlm_confidence_amended_witness :
    extractFormulaFromText (fun _ => some ⟨some (("x^2").toList)⟩)
        ⟨fun _ => none, fun _ => some (("resp").toList)⟩ (("t").toList) =
      ⟨some (("x^2").toList), 9/10⟩ ∧
    ((handlePptxFormula (fun _ => none) (some ⟨fun _ => none, fun _ => none⟩)
        ⟨false, [], true, ("y = 2").toList, none⟩ 1 []).confidence = 9/10 ∨
     (handlePptxFormula (fun _ => none) (some ⟨fun _ => none, fun _ => none⟩)
        ⟨false, [], true, ("y = 2").toList, none⟩ 1 []).confidence = 6/10) :=
  ⟨textLlm_confidence_amended.1 (fun _ => some ⟨some (("x^2").toList)⟩)
      ⟨fun _ => none, fun _ => some (("resp").toList)⟩ (("t").toList)
      (("resp").toList) ⟨some (("x^2").toList)⟩ rfl rfl rfl,
   textLlm_confidence_amended.2 (fun _ => none)
      (some ⟨fun _ => none, fun _ => none⟩)
      ⟨false, [], true, ("y = 2").toList, none⟩ 1 [] rfl⟩

/-! ## `ContentExtractor` (app/services/ingester/extractor/content_extractor.py)

Handler payloads are opaque (`Content := PyStr`); the handlers themselves
and the worker pool are external to the dispatcher, so the synchronous
handler results and the values that submitted futures eventually resolve
to are oracles (`syncPptx`, `futVal`): futures are numbered 0, 1, 2, ... in
submission order and `futVal k` is the value the k-th submitted future
resolves to.  The joined result depends only on these values, never on the
real-time order in which futures complete; completion order is modelled by
letting the join pass consume the recorded `(page/slide, index, future)`
triples in an arbitrary permutation. -/

abbrev Content := PyStr

/-- `_getHandler`: route an element type string to a handler. -/
inductive HandlerId
  | text
  | image
  | table
  | formula
  | default
deriving DecidableEq, Repr

def getHandler (elemType : PyStr) : HandlerId :=
  if elemType = ("text").toList ∨ elemType = ("plain text").toList ∨
     elemType = ("title").toList then .text
  else if elemType = ("image").toList ∨ elemType = ("figure").toList then .image
  else if elemType = ("table").toList then .table
  else if elemType = ("equation").toList ∨
          elemType = ("isolate_formula").toList then .formula
  else .default

/-- In-place list update at an index (`slideElements[elemIndex] = ...`).
Out-of-range indices never occur for recorded futures; the model makes
them a no-op. -/
def listModify {α : Type} (f : α → α) : Nat → List α → List α
  | _, [] => []
  | 0, a :: as => f a :: as
  | n + 1, a :: as => a :: listModify f n as

/-- One write of the join pass: find the FIRST metadata entry whose page or
slide number matches the triple's, and write the future's value at the
recorded index (`for sNum, slideElements in elementsMetadata: if sNum ==
slideNum: ...; break`). -/
def joinStep {α : Type} (wr : Nat → α → α) (meta : List (Nat × List α))
    (t : Nat × Nat × Nat) : List (Nat × List α) :=
  match meta with
  | [] => []
  | (n, ses) :: rest =>
    if n = t.1 then (n, listModify (wr t.2.2) t.2.1 ses) :: rest
    else (n, ses) :: joinStep wr rest t

/-- The join pass over a given consumption order of the recorded futures. -/
def joinPass {α : Type} (wr : Nat → α → α) (order : List (Nat × Nat × Nat))
    (meta : List (Nat × List α)) : List (Nat × List α) :=
  order.foldl (joinStep wr) meta

/-- All writes of a future list applied directly to one slide's element
list (specification device for the per-slide effect of the join pass). -/
def applyWrites {α : Type} (wr : Nat → α → α) (fs : List (Nat × Nat × Nat))
    (ses : List α) : List α :=
  fs.foldl (fun s t => listModify (wr t.2.2) t.2.1 s) ses

/-! ### PPTX path (`extractFromPptx`) -/

/-- A slide shape as the dispatcher sees it: its position plus an opaque
identity (the underlying python-pptx object) that handlers receive. -/
structure PShape where
  top : Int
  left : Int
  shapeId : Nat
deriving DecidableEq, Repr

structure PptxSlide where
  shapes : List PShape
deriving DecidableEq, Repr

/-- One analyzed element of a slide. -/
structure AnalyzedElem where
  classifiedType : PyStr
  position : Int × Int
  size : Int × Int
deriving DecidableEq, Repr

/-- One slide's worth of analyzed elements. -/
structure SlideData where
  slideNumber : Nat
  elements : List AnalyzedElem
deriving DecidableEq, Repr

/-- `ContentExtractor._findShape`: first shape whose (top, left) equals the
element's recorded position. -/
def findShape (slide : PptxSlide) (pos : Int × Int) : Option PShape :=
  slide.shapes.find? (fun s => s.top == pos.1 && s.left == pos.2)

/-- The per-element record built in the submission pass (`elemData`). -/
structure ElemData where
  etype : PyStr
  position : Int × Int
  size : Int × Int
  content : Option Content
  shape : PShape
  handler : HandlerId
deriving DecidableEq, Repr

/-- The submission pass over one slide's elements.  `kept` is the current
length of `slideElements` (the recorded index is `len(slideElements) - 1`
at append time), `ctr` the global submission counter.  Elements whose
position matches no shape are skipped (`continue`); every element of type
`image` submits one future immediately. -/
def submitElems (slide : PptxSlide) (slideNum : Nat) :
    List AnalyzedElem → Nat → Nat →
      (List ElemData × List (Nat × Nat × Nat) × Nat)
  | [], _, ctr => ([], [], ctr)
  | e :: es, kept, ctr =>
    match findShape slide e.position with
    | none => submitElems slide slideNum es kept ctr
    | some shape =>
      let ed : ElemData := ⟨e.classifiedType, e.position, e.size, none,
        shape, getHandler e.classifiedType⟩
      if e.classifiedType = ("image").toList then
        let r := submitElems slide slideNum es (kept + 1) (ctr + 1)
        (ed :: r.1, (slideNum, kept, ctr) :: r.2.1, r.2.2)
      else
        let r := submitElems slide slideNum es (kept + 1) ctr
        (ed :: r.1, r.2.1, r.2.2)

/-- The submission pass over all slides (`prs k` is `prs.slides[k]`). -/
def submitSlides (prs : Nat → PptxSlide) :
    List SlideData → Nat →
      (List (Nat × List ElemData) × List (Nat × Nat × Nat) × Nat)
  | [], ctr => ([], [], ctr)
  | sd :: rest, ctr =>
    let slide := prs (sd.slideNumber - 1)
    let r1 := submitElems slide sd.slideNumber sd.elements 0 ctr
    let r2 := submitSlides prs rest r1.2.2
    ((sd.slideNumber, r1.1) :: r2.1, r1.2.1 ++ r2.2.1, r2.2.2)

/-- The synchronous pass on one slide: every non-image element gets its
handler's `handlePptx` result (the oracle `syncPptx`; the fixed `filePath`
argument of the call is part of the oracle). -/
def syncSlide (syncPptx : HandlerId → PShape → Nat → Content) (slideNum : Nat)
    (ses : List ElemData) : List ElemData :=
  ses.map (fun ed =>
    if ed.etype = ("image").toList then ed
    else { ed with content := some (syncPptx ed.handler ed.shape slideNum) })

def syncPass (syncPptx : HandlerId → PShape → Nat → Content)
    (meta : List (Nat × List ElemData)) : List (Nat × List ElemData) :=
  meta.map (fun p => (p.1, syncSlide syncPptx p.1 p.2))

/-- The write performed when joining one future: store its resolved value
as the element's content. -/
def pptxWrite (futVal : Nat → Content) (fid : Nat) (ed : ElemData) : ElemData :=
  { ed with content := some (futVal fid) }

structure OutElem where
  etype : PyStr
  position : Int × Int
  size : Int × Int
  content : Option Content
deriving DecidableEq, Repr

structure SlideOut where
  slideNumber : Nat
  elements : List OutElem
deriving DecidableEq, Repr

/-- The result-building pass. -/
def buildOutput (meta : List (Nat × List ElemData)) : List SlideOut :=
  meta.map (fun p =>
    ⟨p.1, p.2.map (fun ed => ⟨ed.etype, ed.position, ed.size, ed.content⟩)⟩)

/-- The futures recorded by the submission pass, in submission order. -/
def pptxFutures (prs : Nat → PptxSlide) (input : List SlideData) :
    List (Nat × Nat × Nat) :=
  (submitSlides prs input 0).2.1

/-- `ContentExtractor.extractFromPptx` with the join pass consuming the
recorded futures in the given order. -/
def extractFromPptxWith (prs : Nat → PptxSlide)
    (syncPptx : HandlerId → PShape → Nat → Content) (futVal : Nat → Content)
    (order : List (Nat × Nat × Nat)) (input : List SlideData) : List SlideOut :=
  buildOutput (joinPass (pptxWrite futVal) order
    (syncPass syncPptx (submitSlides prs input 0).1))

/-- `ContentExtractor.extractFromPptx` (canonical submission-order join). -/
def extractFromPptx (prs : Nat → PptxSlide)
    (syncPptx : HandlerId → PShape → Nat → Content) (futVal : Nat → Content)
    (input : List SlideData) : List SlideOut :=
  extractFromPptxWith prs syncPptx futVal (pptxFutures prs input) input

/-- Reference result, element by element: elements whose position matches
no shape are dropped; the rest appear in input order, image elements
carrying the value of the future submitted for them (numbered in
submission order by `ctr`), other elements their handler's synchronous
result. -/
def processedElems (slide : PptxSlide) (slideNum : Nat)
    (syncPptx : HandlerId → PShape → Nat → Content) (futVal : Nat → Content) :
    List AnalyzedElem → Nat → (List ElemData × Nat)
  | [], ctr => ([], ctr)
  | e :: es, ctr =>
    match findShape slide e.position with
    | none => processedElems slide slideNum syncPptx futVal es ctr
    | some shape =>
      if e.classifiedType = ("image").toList then
        let r := processedElems slide slideNum syncPptx futVal es (ctr + 1)
        (⟨e.classifiedType, e.position, e.size, some (futVal ctr), shape,
          getHandler e.classifiedType⟩ :: r.1, r.2)
      else
        let r := processedElems slide slideNum syncPptx futVal es ctr
        (⟨e.classifiedType, e.position, e.size,
          some (syncPptx (getHandler e.classifiedType) shape slideNum), shape,
          getHandler e.classifiedType⟩ :: r.1, r.2)

def processedSlides (prs : Nat → PptxSlide)
    (syncPptx : HandlerId → PShape → Nat → Content) (futVal : Nat → Content) :
    List SlideData → Nat → List (Nat × List ElemData)
  | [], _ => []
  | sd :: rest, ctr =>
    let slide := prs (sd.slideNumber - 1)
    let r := processedElems slide sd.slideNumber syncPptx futVal sd.elements ctr
    (sd.slideNumber, r.1) ::
      processedSlides prs syncPptx futVal rest r.2

/-- The reference output of the PPTX dispatcher. -/
def expectedPptxOutput (prs : Nat → PptxSlide)
    (syncPptx : HandlerId → PShape → Nat → Content) (futVal : Nat → Content)
    (input : List SlideData) : List SlideOut :=
  buildOutput (processedSlides prs syncPptx futVal input 0)

/-! Generic facts about the join pass. -/

theorem listModify_comm {α : Type} (f g : α → α) :
    ∀ {i j : Nat}, i ≠ j → ∀ (l : List α),
      listModify f i (listModify g j l) = listModify g j (listModify f i l) := by
  intro i j hij l
  induction l generalizing i j with
  | nil => simp [listModify]
  | cons a as ih =>
    cases i with
    | zero =>
      cases j with
      | zero => exact absurd rfl hij
      | succ j => simp [listModify]
    | succ i =>
      cases j with
      | zero => simp [listModify]
      | succ j =>
        simp only [listModify, List.cons.injEq, true_and]
        exact ih (fun h => hij (by rw [h]))

theorem listModify_append {α : Type} (f : α → α) (x : α) (pre xs : List α) :
    listModify f pre.length (pre ++ x :: xs) = pre ++ f x :: xs := by
  induction pre with
  | nil => simp [listModify]
  | cons a as ih => simp [listModify, ih]

theorem joinPass_append {α : Type} (wr : Nat → α → α)
    (fs₁ fs₂ : List (Nat × Nat × Nat)) (meta : List (Nat × List α)) :
    joinPass wr (fs₁ ++ fs₂) meta = joinPass wr fs₂ (joinPass wr fs₁ meta) :=
  List.foldl_append _ _ _ _

theorem joinPass_head_all {α : Type} (wr : Nat → α → α) {n : Nat}
    {fs : List (Nat × Nat × Nat)} (h : ∀ t ∈ fs, t.1 = n) :
    ∀ (ses : List α) (m : List (Nat × List α)),
      joinPass wr fs ((n, ses) :: m) = (n, applyWrites wr fs ses) :: m := by
  induction fs with
  | nil => intro ses m; rfl
  | cons t ts ih =>
    intro ses m
    have ht : t.1 = n := h t (by simp)
    have hrest : ∀ t ∈ ts, t.1 = n := fun u hu => h u (List.mem_cons_of_mem _ hu)
    show joinPass wr ts (joinStep wr ((n, ses) :: m) t) = _
    rw [show joinStep wr ((n, ses) :: m) t =
        (n, listModify (wr t.2.2) t.2.1 ses) :: m by simp [joinStep, ht]]
    rw [ih hrest]
    rfl

theorem joinPass_skip {α : Type} (wr : Nat → α → α) {n : Nat}
    {fs : List (Nat × Nat × Nat)} (h : ∀ t ∈ fs, t.1 ≠ n) :
    ∀ (ses : List α) (m : List (Nat × List α)),
      joinPass wr fs ((n, ses) :: m) = (n, ses) :: joinPass wr fs m := by
  induction fs with
  | nil => intro ses m; rfl
  | cons t ts ih =>
    intro ses m
    have ht : t.1 ≠ n := h t (by simp)
    have hrest : ∀ t ∈ ts, t.1 ≠ n := fun u hu => h u (List.mem_cons_of_mem _ hu)
    show joinPass wr ts (joinStep wr ((n, ses) :: m) t) = _
    rw [show joinStep wr ((n, ses) :: m) t = (n, ses) :: joinStep wr m t by
      simp only [joinStep]
      rw [if_neg (Ne.symm ht)]]
    exact ih hrest _ _

/-- Writes with different (page, index) keys commute. -/
theorem joinStep_comm {α : Type} (wr : Nat → α → α)
    {t₁ t₂ : Nat × Nat × Nat} (hk : t₁.1 ≠ t₂.1 ∨ t₁.2.1 ≠ t₂.2.1) :
    ∀ (m : List (Nat × List α)),
      joinStep wr (joinStep wr m t₁) t₂ = joinStep wr (joinStep wr m t₂) t₁ := by
  intro m
  induction m with
  | nil => rfl
  | cons p rest ih =>
    obtain ⟨n, ses⟩ := p
    by_cases h1 : n = t₁.1
    · by_cases h2 : n = t₂.1
      · have hkk : t₁.2.1 ≠ t₂.2.1 := by
          rcases hk with hk | hk
          · exact absurd (h1 ▸ h2) hk
          · exact hk
        simp only [joinStep, if_pos h1, if_pos h2]
        rw [listModify_comm _ _ (fun h => hkk h.symm)]
      · simp only [joinStep, if_pos h1, if_neg h2]
    · by_cases h2 : n = t₂.1
      · simp only [joinStep, if_neg h1, if_pos h2]
      · simp only [joinStep, if_neg h1, if_neg h2]
        rw [ih]

/-- The join pass gives the same result for every consumption order of
futures with pairwise-distinct (page, index) keys. -/
theorem joinPass_perm {α : Type} (wr : Nat → α → α)
    {order fs : List (Nat × Nat × Nat)} (hperm : order.Perm fs)
    (hkeys : fs.Pairwise (fun a b => a.1 ≠ b.1 ∨ a.2.1 ≠ b.2.1))
    (meta : List (Nat × List α)) :
    joinPass wr order meta = joinPass wr fs meta := by
  refine hperm.foldl_eq' ?_ meta
  intro x hx y hy z
  by_cases hxy : x = y
  · rw [hxy]
  · have hsym : Symmetric (fun a b : Nat × Nat × Nat =>
        a.1 ≠ b.1 ∨ a.2.1 ≠ b.2.1) := by
      intro a b hab
      rcases hab with h | h
      · exact Or.inl h.symm
      · exact Or.inr h.symm
    have hk := hkeys.forall hsym (hperm.mem_iff.mp hx) (hperm.mem_iff.mp hy) hxy
    exact joinStep_comm wr hk z

/-! PPTX submission-pass facts. -/

theorem submitElems_futures_mem {slide : PptxSlide} {n : Nat} :
    ∀ {es : List AnalyzedElem} {kept ctr : Nat} {t : Nat × Nat × Nat},
      t ∈ (submitElems slide n es kept ctr).2.1 → t.1 = n ∧ kept ≤ t.2.1 := by
  intro es
  induction es with
  | nil => intro kept ctr t ht; simp [submitElems] at ht
  | cons e es ih =>
    intro kept ctr t ht
    simp only [submitElems] at ht
    cases hf : findShape slide e.position with
    | none =>
      rw [hf] at ht
      exact ih ht
    | some shape =>
      rw [hf] at ht
      by_cases himg : e.classifiedType = ("image").toList
      · simp only [himg, if_true] at ht
        rcases List.mem_cons.mp ht with rfl | ht
        · exact ⟨rfl, le_refl _⟩
        · obtain ⟨h1, h2⟩ := ih ht
          exact ⟨h1, le_trans (Nat.le_succ kept) h2⟩
      · simp only [himg, if_false] at ht
        obtain ⟨h1, h2⟩ := ih ht
        exact ⟨h1, le_trans (Nat.le_succ kept) h2⟩

theorem submitElems_futures_pairwise {slide : PptxSlide} {n : Nat} :
    ∀ {es : List AnalyzedElem} {kept ctr : Nat},
      (submitElems slide n es kept ctr).2.1.Pairwise
        (fun a b => a.2.1 < b.2.1) := by
  intro es
  induction es with
  | nil => intro kept ctr; simp [submitElems]
  | cons e es ih =>
    intro kept ctr
    simp only [submitElems]
    cases hf : findShape slide e.position with
    | none => exact ih
    | some shape =>
      by_cases himg : e.classifiedType = ("image").toList
      · simp only [himg, if_true]
        refine List.Pairwise.cons ?_ ih
        intro t ht
        have := (submitElems_futures_mem ht).2
        exact Nat.lt_of_lt_of_le (Nat.lt_succ_self kept) this
      · simp only [himg, if_false]
        exact ih

theorem submitElems_ctr {slide : PptxSlide} {n : Nat}
    {syncPptx : HandlerId → PShape → Nat → Content} {futVal : Nat → Content} :
    ∀ {es : List AnalyzedElem} {kept ctr : Nat},
      (submitElems slide n es kept ctr).2.2 =
        (processedElems slide n syncPptx futVal es ctr).2 := by
  intro es
  induction es with
  | nil => intro kept ctr; rfl
  | cons e es ih =>
    intro kept ctr
    simp only [submitElems, processedElems]
    cases hf : findShape slide e.position with
    | none => exact ih
    | some shape =>
      by_cases himg : e.classifiedType = ("image").toList
      · simp only [himg, if_true]; exact ih
      · simp only [himg, if_false]; exact ih

/-! Defining equations of the submission pass and reference result,
separated by branch. -/

theorem submitElems_cons_none {slide : PptxSlide} {n : Nat}
    {e : AnalyzedElem} {es : List AnalyzedElem} {kept ctr : Nat}
    (hf : findShape slide e.position = none) :
    submitElems slide n (e :: es) kept ctr = submitElems slide n es kept ctr := by
  simp [submitElems, hf]

theorem submitElems_cons_image {slide : PptxSlide} {n : Nat}
    {e : AnalyzedElem} {es : List AnalyzedElem} {kept ctr : Nat}
    {shape : PShape} (hf : findShape slide e.position = some shape)
    (himg : e.classifiedType = ("image").toList) :
    submitElems slide n (e :: es) kept ctr =
      (⟨e.classifiedType, e.position, e.size, none, shape,
          getHandler e.classifiedType⟩ ::
        (submitElems slide n es (kept + 1) (ctr + 1)).1,
       (n, kept, ctr) :: (submitElems slide n es (kept + 1) (ctr + 1)).2.1,
       (submitElems slide n es (kept + 1) (ctr + 1)).2.2) := by
  simp only [submitElems, hf]
  rw [if_pos himg]

theorem submitElems_cons_other {slide : PptxSlide} {n : Nat}
    {e : AnalyzedElem} {es : List AnalyzedElem} {kept ctr : Nat}
    {shape : PShape} (hf : findShape slide e.position = some shape)
    (himg : ¬ e.classifiedType = ("image").toList) :
    submitElems slide n (e :: es) kept ctr =
      (⟨e.classifiedType, e.position, e.size, none, shape,
          getHandler e.classifiedType⟩ ::
        (submitElems slide n es (kept + 1) ctr).1,
       (submitElems slide n es (kept + 1) ctr).2.1,
       (submitElems slide n es (kept + 1) ctr).2.2) := by
  simp only [submitElems, hf]
  rw [if_neg himg]

theorem processedElems_cons_none {slide : PptxSlide} {n : Nat}
    {syncPptx : HandlerId → PShape → Nat → Content} {futVal : Nat → Content}
    {e : AnalyzedElem} {es : List AnalyzedElem} {ctr : Nat}
    (hf : findShape slide e.position = none) :
    processedElems slide n syncPptx futVal (e :: es) ctr =
      processedElems slide n syncPptx futVal es ctr := by
  simp [processedElems, hf]

theorem processedElems_cons_image {slide : PptxSlide} {n : Nat}
    {syncPptx : HandlerId → PShape → Nat → Content} {futVal : Nat → Content}
    {e : AnalyzedElem} {es : List AnalyzedElem} {ctr : Nat}
    {shape : PShape} (hf : findShape slide e.position = some shape)
    (himg : e.classifiedType = ("image").toList) :
    processedElems slide n syncPptx futVal (e :: es) ctr =
      (⟨e.classifiedType, e.position, e.size, some (futVal ctr), shape,
          getHandler e.classifiedType⟩ ::
        (processedElems slide n syncPptx futVal es (ctr + 1)).1,
       (processedElems slide n syncPptx futVal es (ctr + 1)).2) := by
  simp only [processedElems, hf]
  rw [if_pos himg]

theorem processedElems_cons_other {slide : PptxSlide} {n : Nat}
    {syncPptx : HandlerId → PShape → Nat → Content} {futVal : Nat → Content}
    {e : AnalyzedElem} {es : List AnalyzedElem} {ctr : Nat}
    {shape : PShape} (hf : findShape slide e.position = some shape)
    (himg : ¬ e.classifiedType = ("image").toList) :
    processedElems slide n syncPptx futVal (e :: es) ctr =
      (⟨e.classifiedType, e.position, e.size,
          some (syncPptx (getHandler e.classifiedType) shape n), shape,
          getHandler e.classifiedType⟩ ::
        (processedElems slide n syncPptx futVal es ctr).1,
       (processedElems slide n syncPptx futVal es ctr).2) := by
  simp only [processedElems, hf]
  rw [if_neg himg]

theorem syncSlide_cons_image
    {syncPptx : HandlerId → PShape → Nat → Content} {n : Nat}
    {ed : ElemData} {l : List ElemData}
    (himg : ed.etype = ("image").toList) :
    syncSlide syncPptx n (ed :: l) = ed :: syncSlide syncPptx n l := by
  show (if ed.etype = ("image").toList then ed else _) :: _ = _
  rw [if_pos himg]
  rfl

theorem syncSlide_cons_other
    {syncPptx : HandlerId → PShape → Nat → Content} {n : Nat}
    {ed : ElemData} {l : List ElemData}
    (himg : ¬ ed.etype = ("image").toList) :
    syncSlide syncPptx n (ed :: l) =
      { ed with content := some (syncPptx ed.handler ed.shape n) } ::
        syncSlide syncPptx n l := by
  show (if ed.etype = ("image").toList then ed else _) :: _ = _
  rw [if_neg himg]
  rfl

theorem applyWrites_cons {α : Type} (wr : Nat → α → α) (t : Nat × Nat × Nat)
    (fs : List (Nat × Nat × Nat)) (ses : List α) :
    applyWrites wr (t :: fs) ses =
      applyWrites wr fs (listModify (wr t.2.2) t.2.1 ses) := rfl

/-- The central per-slide fact: applying the recorded writes of one slide's
futures to the synchronously-processed element list yields the reference
element list (with `pre` an already-finished prefix of the slide whose
length equals the loop's running `len(slideElements)`). -/
theorem applyWrites_submitElems {slide : PptxSlide} {n : Nat}
    {syncPptx : HandlerId → PShape → Nat → Content} {futVal : Nat → Content} :
    ∀ (es : List AnalyzedElem) (ctr : Nat) (pre : List ElemData),
      applyWrites (pptxWrite futVal) (submitElems slide n es pre.length ctr).2.1
          (pre ++ syncSlide syncPptx n (submitElems slide n es pre.length ctr).1)
        = pre ++ (processedElems slide n syncPptx futVal es ctr).1 := by
  intro es
  induction es with
  | nil =>
    intro ctr pre
    simp [submitElems, processedElems, syncSlide, applyWrites]
  | cons e es ih =>
    intro ctr pre
    cases hf : findShape slide e.position with
    | none =>
      rw [submitElems_cons_none hf, processedElems_cons_none hf]
      exact ih ctr pre
    | some shape =>
      by_cases himg : e.classifiedType = ("image").toList
      · rw [submitElems_cons_image hf himg, processedElems_cons_image hf himg]
        rw [syncSlide_cons_image himg, applyWrites_cons]
        rw [show listModify (pptxWrite futVal ctr) pre.length
            (pre ++ ⟨e.classifiedType, e.position, e.size, none, shape,
                getHandler e.classifiedType⟩ ::
              syncSlide syncPptx n
                (submitElems slide n es (pre.length + 1) (ctr + 1)).1) =
            pre ++ ⟨e.classifiedType, e.position, e.size, some (futVal ctr),
                shape, getHandler e.classifiedType⟩ ::
              syncSlide syncPptx n
                (submitElems slide n es (pre.length + 1) (ctr + 1)).1
          from listModify_append _ _ _ _]
        have := ih (ctr + 1) (pre ++
          [⟨e.classifiedType, e.position, e.size, some (futVal ctr), shape,
            getHandler e.classifiedType⟩])
        rw [List.length_append] at this
        simp only [List.append_assoc, List.cons_append, List.nil_append,
          List.length_cons, List.length_nil] at this ⊢
        exact this
      · rw [submitElems_cons_other hf himg, processedElems_cons_other hf himg]
        rw [syncSlide_cons_other himg]
        have := ih ctr (pre ++
          [⟨e.classifiedType, e.position, e.size,
            some (syncPptx (getHandler e.classifiedType) shape n), shape,
            getHandler e.classifiedType⟩])
        rw [List.length_append] at this
        simp only [List.append_assoc, List.cons_append, List.nil_append,
          List.length_cons, List.length_nil] at this ⊢
        exact this

theorem submitSlides_futures_mem {prs : Nat → PptxSlide} :
    ∀ {input : List SlideData} {ctr : Nat} {t : Nat × Nat × Nat},
      t ∈ (submitSlides prs input ctr).2.1 →
        t.1 ∈ input.map SlideData.slideNumber := by
  intro input
  induction input with
  | nil => intro ctr t ht; simp [submitSlides] at ht
  | cons sd rest ih =>
    intro ctr t ht
    simp only [submitSlides] at ht
    rcases List.mem_append.mp ht with ht | ht
    · simp only [List.map_cons, List.mem_cons]
      exact Or.inl (submitElems_futures_mem ht).1
    · simp only [List.map_cons, List.mem_cons]
      exact Or.inr (ih ht)

theorem submitSlides_futures_keys {prs : Nat → PptxSlide} :
    ∀ {input : List SlideData} {ctr : Nat},
      (input.map SlideData.slideNumber).Nodup →
      (submitSlides prs input ctr).2.1.Pairwise
        (fun a b => a.1 ≠ b.1 ∨ a.2.1 ≠ b.2.1) := by
  intro input
  induction input with
  | nil => intro ctr _; simp [submitSlides]
  | cons sd rest ih =>
    intro ctr hnodup
    simp only [List.map_cons, List.nodup_cons] at hnodup
    simp only [submitSlides]
    rw [List.pairwise_append]
    refine ⟨?_, ih hnodup.2, ?_⟩
    · have hpw := @submitElems_futures_pairwise
        (prs (sd.slideNumber - 1)) sd.slideNumber sd.elements 0 ctr
      exact hpw.imp (fun h => Or.inr (Nat.ne_of_lt h))
    · intro a ha b hb
      have ha1 := (submitElems_futures_mem ha).1
      have hb1 := submitSlides_futures_mem hb
      left
      rw [ha1]
      intro hcontra
      exact hnodup.1 (by rw [hcontra]; exact hb1)

/-- The canonical (submission-order) join turns the synced metadata into
the reference result. -/
theorem joinPass_submit_eq_processed {prs : Nat → PptxSlide}
    {syncPptx : HandlerId → PShape → Nat → Content} {futVal : Nat → Content} :
    ∀ (input : List SlideData) (ctr : Nat),
      (input.map SlideData.slideNumber).Nodup →
      joinPass (pptxWrite futVal) (submitSlides prs input ctr).2.1
          (syncPass syncPptx (submitSlides prs input ctr).1)
        = processedSlides prs syncPptx futVal input ctr := by
  intro input
  induction input with
  | nil => intro ctr _; rfl
  | cons sd rest ih =>
    intro ctr hnodup
    simp only [List.map_cons, List.nodup_cons] at hnodup
    simp only [submitSlides, processedSlides, syncPass, List.map_cons,
      joinPass_append]
    rw [joinPass_head_all (pptxWrite futVal)
      (fun t ht => (submitElems_futures_mem ht).1)]
    rw [joinPass_skip (pptxWrite futVal)
      (fun t ht hcontra => hnodup.1
        (by rw [← hcontra]; exact submitSlides_futures_mem ht))]
    have happly := @applyWrites_submitElems (prs (sd.slideNumber - 1))
      sd.slideNumber syncPptx futVal sd.elements ctr []
    simp only [List.length_nil, List.nil_append] at happly
    rw [happly]
    rw [@submitElems_ctr _ _ syncPptx futVal _ _ _]
    exact congrArg (List.cons _) (ih _ hnodup.2)

/-- The full characterization of `extractFromPptx`: for any consumption
order of the futures (any completion order), the output equals the
reference result. -/
theorem extractFromPptxWith_spec (prs : Nat → PptxSlide)
    (syncPptx : HandlerId → PShape → Nat → Content) (futVal : Nat → Content)
    (input : List SlideData) (order : List (Nat × Nat × Nat))
    (hnodup : (input.map SlideData.slideNumber).Nodup)
    (horder : order.Perm (pptxFutures prs input)) :
    extractFromPptxWith prs syncPptx futVal order input =
      expectedPptxOutput prs syncPptx futVal input := by
  unfold extractFromPptxWith expectedPptxOutput
  rw [joinPass_perm (pptxWrite futVal) horder
    (submitSlides_futures_keys hnodup)]
  unfold pptxFutures
  rw [joinPass_submit_eq_processed input 0 hnodup]

/-- Projection of an analyzed element to its order-relevant identity. -/
def elemProj (e : AnalyzedElem) : PyStr × (Int × Int) × (Int × Int) :=
  (e.classifiedType, e.position, e.size)

/-- Projection of an output element to its order-relevant identity. -/
def outProj (oe : OutElem) : PyStr × (Int × Int) × (Int × Int) :=
  (oe.etype, oe.position, oe.size)

theorem processedElems_proj {slide : PptxSlide} {n : Nat}
    {syncPptx : HandlerId → PShape → Nat → Content} {futVal : Nat → Content} :
    ∀ (es : List AnalyzedElem) (ctr : Nat),
      (processedElems slide n syncPptx futVal es ctr).1.map
          (fun ed => (ed.etype, ed.position, ed.size)) =
        (es.filter (fun e => (findShape slide e.position).isSome)).map
          elemProj := by
  intro es
  induction es with
  | nil => intro ctr; rfl
  | cons e es ih =>
    intro ctr
    cases hf : findShape slide e.position with
    | none =>
      rw [processedElems_cons_none hf]
      rw [List.filter_cons_of_neg (by simp [hf])]
      exact ih ctr
    | some shape =>
      by_cases himg : e.classifiedType = ("image").toList
      · rw [processedElems_cons_image hf himg]
        rw [List.filter_cons_of_pos (by simp [hf])]
        simp only [List.map_cons, ih (ctr + 1)]
        rfl
      · rw [processedElems_cons_other hf himg]
        rw [List.filter_cons_of_pos (by simp [hf])]
        simp only [List.map_cons, ih ctr]
        rfl

theorem processedElems_content_isSome {slide : PptxSlide} {n : Nat}
    {syncPptx : HandlerId → PShape → Nat → Content} {futVal : Nat → Content} :
    ∀ (es : List AnalyzedElem) (ctr : Nat),
      ∀ ed ∈ (processedElems slide n syncPptx futVal es ctr).1,
        ed.content.isSome := by
  intro es
  induction es with
  | nil => intro ctr ed hed; simp [processedElems] at hed
  | cons e es ih =>
    intro ctr ed hed
    cases hf : findShape slide e.position with
    | none =>
      rw [processedElems_cons_none hf] at hed
      exact ih ctr ed hed
    | some shape =>
      by_cases himg : e.classifiedType = ("image").toList
      · rw [processedElems_cons_image hf himg] at hed
        rcases List.mem_cons.mp hed with rfl | hed
        · rfl
        · exact ih (ctr + 1) ed hed
      · rw [processedElems_cons_other hf himg] at hed
        rcases List.mem_cons.mp hed with rfl | hed
        · rfl
        · exact ih ctr ed hed

/-- Order-preservation of the reference output: per slide, the output
elements are exactly the input elements whose position matched a shape, in
input order. -/
theorem expectedPptxOutput_proj (prs : Nat → PptxSlide)
    (syncPptx : HandlerId → PShape → Nat → Content) (futVal : Nat → Content) :
    ∀ (input : List SlideData) (ctr : Nat),
      (buildOutput (processedSlides prs syncPptx futVal input ctr)).map
          (fun so => (so.slideNumber, so.elements.map outProj)) =
        input.map (fun sd => (sd.slideNumber,
          (sd.elements.filter
            (fun e => (findShape (prs (sd.slideNumber - 1)) e.position).isSome)).map
              elemProj)) := by
  intro input
  induction input with
  | nil => intro ctr; rfl
  | cons sd rest ih =>
    intro ctr
    simp only [processedSlides, buildOutput, List.map_cons, List.map_map]
    refine congrArg₂ List.cons ?_ ?_
    · refine congrArg (Prod.mk sd.slideNumber) ?_
      rw [← @processedElems_proj (prs (sd.slideNumber - 1)) sd.slideNumber
        syncPptx futVal sd.elements ctr]
      rfl
    · rw [← List.map_map]
      exact ih _

/-! ### PDF path (`extractFromPdf`)

A page's handle is its page number; `scaleOf` gives the scale factor the
code computes from the page geometry and the dpi (external geometry, hence
an oracle). -/

/-- One page's worth of analyzed detections. -/
structure PdfPageData where
  pageNumber : Nat
  detections : List Detection
deriving DecidableEq, Repr

/-- The per-detection record built in the PDF submission pass. -/
structure PdfElemData where
  etype : PyStr
  bbox : Box
  confidence : ℚ
  content : Option Content
  handler : HandlerId
  page : Nat
  scale : ℚ
deriving DecidableEq, Repr

/-- The PDF submission pass over one page's detections: every element whose
class is `image` or `figure` submits one future immediately. -/
def submitDets (pageNum : Nat) (scale : ℚ) :
    List Detection → Nat → Nat →
      (List PdfElemData × List (Nat × Nat × Nat) × Nat)
  | [], _, ctr => ([], [], ctr)
  | d :: ds, kept, ctr =>
    let ed : PdfElemData := ⟨d.className, d.bbox, d.conf, none,
      getHandler d.className, pageNum, scale⟩
    if d.className = ("image").toList ∨ d.className = ("figure").toList then
      let r := submitDets pageNum scale ds (kept + 1) (ctr + 1)
      (ed :: r.1, (pageNum, kept, ctr) :: r.2.1, r.2.2)
    else
      let r := submitDets pageNum scale ds (kept + 1) ctr
      (ed :: r.1, r.2.1, r.2.2)

/-- The PDF submission pass over all pages. -/
def submitPages (scaleOf : Nat → ℚ) :
    List PdfPageData → Nat →
      (List (Nat × List PdfElemData) × List (Nat × Nat × Nat) × Nat)
  | [], ctr => ([], [], ctr)
  | pd :: rest, ctr =>
    let r1 := submitDets pd.pageNumber (scaleOf pd.pageNumber)
      pd.detections 0 ctr
    let r2 := submitPages scaleOf rest r1.2.2
    ((pd.pageNumber, r1.1) :: r2.1, r1.2.1 ++ r2.2.1, r2.2.2)

/-- The synchronous pass on one page: every non-image, non-figure element
gets its handler's `handlePdf(page, bbox, scale)` result (oracle
`syncPdf`). -/
def syncPage (syncPdf : HandlerId → Nat → Box → ℚ → Content)
    (ses : List PdfElemData) : List PdfElemData :=
  ses.map (fun ed =>
    if ed.etype = ("image").toList ∨ ed.etype = ("figure").toList then ed
    else { ed with
      content := some (syncPdf ed.handler ed.page ed.bbox ed.scale) })

def syncPassPdf (syncPdf : HandlerId → Nat → Box → ℚ → Content)
    (meta : List (Nat × List PdfElemData)) : List (Nat × List PdfElemData) :=
  meta.map (fun p => (p.1, syncPage syncPdf p.2))

def pdfWrite (futVal : Nat → Content) (fid : Nat) (ed : PdfElemData) :
    PdfElemData :=
  { ed with content := some (futVal fid) }

structure PdfOutElem where
  etype : PyStr
  bbox : Box
  confidence : ℚ
  content : Option Content
deriving DecidableEq, Repr

structure PageOut where
  pageNumber : Nat
  elements : List PdfOutElem
deriving DecidableEq, Repr

def buildPdfOutput (meta : List (Nat × List PdfElemData)) : List PageOut :=
  meta.map (fun p =>
    ⟨p.1, p.2.map (fun ed => ⟨ed.etype, ed.bbox, ed.confidence, ed.content⟩)⟩)

def pdfFutures (scaleOf : Nat → ℚ) (input : List PdfPageData) :
    List (Nat × Nat × Nat) :=
  (submitPages scaleOf input 0).2.1

/-- `ContentExtractor.extractFromPdf` with the join pass consuming the
recorded futures in the given order. -/
def extractFromPdfWith (scaleOf : Nat → ℚ)
    (syncPdf : HandlerId → Nat → Box → ℚ → Content) (futVal : Nat → Content)
    (order : List (Nat × Nat × Nat)) (input : List PdfPageData) :
    List PageOut :=
  buildPdfOutput (joinPass (pdfWrite futVal) order
    (syncPassPdf syncPdf (submitPages scaleOf input 0).1))

/-- `ContentExtractor.extractFromPdf` (canonical submission-order join). -/
def extractFromPdf (scaleOf : Nat → ℚ)
    (syncPdf : HandlerId → Nat → Box → ℚ → Content) (futVal : Nat → Content)
    (input : List PdfPageData) : List PageOut :=
  extractFromPdfWith scaleOf syncPdf futVal (pdfFutures scaleOf input) input

/-- Reference result for one page, detection by detection, in input
order. -/
def processedDets (pageNum : Nat) (scale : ℚ)
    (syncPdf : HandlerId → Nat → Box → ℚ → Content) (futVal : Nat → Content) :
    List Detection → Nat → (List PdfElemData × Nat)
  | [], ctr => ([], ctr)
  | d :: ds, ctr =>
    if d.className = ("image").toList ∨ d.className = ("figure").toList then
      let r := processedDets pageNum scale syncPdf futVal ds (ctr + 1)
      (⟨d.className, d.bbox, d.conf, some (futVal ctr),
        getHandler d.className, pageNum, scale⟩ :: r.1, r.2)
    else
      let r := processedDets pageNum scale syncPdf futVal ds ctr
      (⟨d.className, d.bbox, d.conf,
        some (syncPdf (getHandler d.className) pageNum d.bbox scale),
        getHandler d.className, pageNum, scale⟩ :: r.1, r.2)

def processedPages (scaleOf : Nat → ℚ)
    (syncPdf : HandlerId → Nat → Box → ℚ → Content) (futVal : Nat → Content) :
    List PdfPageData → Nat → List (Nat × List PdfElemData)
  | [], _ => []
  | pd :: rest, ctr =>
    let r := processedDets pd.pageNumber (scaleOf pd.pageNumber) syncPdf
      futVal pd.detections ctr
    (pd.pageNumber, r.1) :: processedPages scaleOf syncPdf futVal rest r.2

/-- The reference output of the PDF dispatcher. -/
def expectedPdfOutput (scaleOf : Nat → ℚ)
    (syncPdf : HandlerId → Nat → Box → ℚ → Content) (futVal : Nat → Content)
    (input : List PdfPageData) : List PageOut :=
  buildPdfOutput (processedPages scaleOf syncPdf futVal input 0)

/-! PDF submission-pass facts (parallel to the PPTX ones). -/

theorem submitDets_cons_image {pageNum : Nat} {scale : ℚ} {d : Detection}
    {ds : List Detection} {kept ctr : Nat}
    (himg : d.className = ("image").toList ∨
      d.className = ("figure").toList) :
    submitDets pageNum scale (d :: ds) kept ctr =
      (⟨d.className, d.bbox, d.conf, none, getHandler d.className, pageNum,
          scale⟩ :: (submitDets pageNum scale ds (kept + 1) (ctr + 1)).1,
       (pageNum, kept, ctr) ::
         (submitDets pageNum scale ds (kept + 1) (ctr + 1)).2.1,
       (submitDets pageNum scale ds (kept + 1) (ctr + 1)).2.2) := by
  simp only [submitDets]
  rw [if_pos himg]

theorem submitDets_cons_other {pageNum : Nat} {scale : ℚ} {d : Detection}
    {ds : List Detection} {kept ctr : Nat}
    (himg : ¬ (d.className = ("image").toList ∨
      d.className = ("figure").toList)) :
    submitDets pageNum scale (d :: ds) kept ctr =
      (⟨d.className, d.bbox, d.conf, none, getHandler d.className, pageNum,
          scale⟩ :: (submitDets pageNum scale ds (kept + 1) ctr).1,
       (submitDets pageNum scale ds (kept + 1) ctr).2.1,
       (submitDets pageNum scale ds (kept + 1) ctr).2.2) := by
  simp only [submitDets]
  rw [if_neg himg]

theorem processedDets_cons_image {pageNum : Nat} {scale : ℚ}
    {syncPdf : HandlerId → Nat → Box → ℚ → Content} {futVal : Nat → Content}
    {d : Detection} {ds : List Detection} {ctr : Nat}
    (himg : d.className = ("image").toList ∨
      d.className = ("figure").toList) :
    processedDets pageNum scale syncPdf futVal (d :: ds) ctr =
      (⟨d.className, d.bbox, d.conf, some (futVal ctr),
          getHandler d.className, pageNum, scale⟩ ::
        (processedDets pageNum scale syncPdf futVal ds (ctr + 1)).1,
       (processedDets pageNum scale syncPdf futVal ds (ctr + 1)).2) := by
  simp only [processedDets]
  rw [if_pos himg]

theorem processedDets_cons_other {pageNum : Nat} {scale : ℚ}
    {syncPdf : HandlerId → Nat → Box → ℚ → Content} {futVal : Nat → Content}
    {d : Detection} {ds : List Detection} {ctr : Nat}
    (himg : ¬ (d.className = ("image").toList ∨
      d.className = ("figure").toList)) :
    processedDets pageNum scale syncPdf futVal (d :: ds) ctr =
      (⟨d.className, d.bbox, d.conf,
          some (syncPdf (getHandler d.className) pageNum d.bbox scale),
          getHandler d.className, pageNum, scale⟩ ::
        (processedDets pageNum scale syncPdf futVal ds ctr).1,
       (processedDets pageNum scale syncPdf futVal ds ctr).2) := by
  simp only [processedDets]
  rw [if_neg himg]

theorem syncPage_cons_image {syncPdf : HandlerId → Nat → Box → ℚ → Content}
    {ed : PdfElemData} {l : List PdfElemData}
    (himg : ed.etype = ("image").toList ∨ ed.etype = ("figure").toList) :
    syncPage syncPdf (ed :: l) = ed :: syncPage syncPdf l := by
  show (if ed.etype = ("image").toList ∨ ed.etype = ("figure").toList
    then ed else _) :: _ = _
  rw [if_pos himg]
  rfl

theorem syncPage_cons_other {syncPdf : HandlerId → Nat → Box → ℚ → Content}
    {ed : PdfElemData} {l : List PdfElemData}
    (himg : ¬ (ed.etype = ("image").toList ∨
      ed.etype = ("figure").toList)) :
    syncPage syncPdf (ed :: l) =
      { ed with
        content := some (syncPdf ed.handler ed.page ed.bbox ed.scale) } ::
        syncPage syncPdf l := by
  show (if ed.etype = ("image").toList ∨ ed.etype = ("figure").toList
    then ed else _) :: _ = _
  rw [if_neg himg]
  rfl

theorem submitDets_futures_mem {pageNum : Nat} {scale : ℚ} :
    ∀ {ds : List Detection} {kept ctr : Nat} {t : Nat × Nat × Nat},
      t ∈ (submitDets pageNum scale ds kept ctr).2.1 →
        t.1 = pageNum ∧ kept ≤ t.2.1 := by
  intro ds
  induction ds with
  | nil => intro kept ctr t ht; simp [submitDets] at ht
  | cons d ds ih =>
    intro kept ctr t ht
    by_cases himg : d.className = ("image").toList ∨
        d.className = ("figure").toList
    · rw [submitDets_cons_image himg] at ht
      rcases List.mem_cons.mp ht with rfl | ht
      · exact ⟨rfl, le_refl _⟩
      · obtain ⟨h1, h2⟩ := ih ht
        exact ⟨h1, le_trans (Nat.le_succ kept) h2⟩
    · rw [submitDets_cons_other himg] at ht
      obtain ⟨h1, h2⟩ := ih ht
      exact ⟨h1, le_trans (Nat.le_succ kept) h2⟩

theorem submitDets_futures_pairwise {pageNum : Nat} {scale : ℚ} :
    ∀ {ds : List Detection} {kept ctr : Nat},
      (submitDets pageNum scale ds kept ctr).2.1.Pairwise
        (fun a b => a.2.1 < b.2.1) := by
  intro ds
  induction ds with
  | nil => intro kept ctr; simp [submitDets]
  | cons d ds ih =>
    intro kept ctr
    by_cases himg : d.className = ("image").toList ∨
        d.className = ("figure").toList
    · rw [submitDets_cons_image himg]
      refine List.Pairwise.cons ?_ ih
      intro t ht
      exact Nat.lt_of_lt_of_le (Nat.lt_succ_self kept)
        (submitDets_futures_mem ht).2
    · rw [submitDets_cons_other himg]
      exact ih

theorem submitDets_ctr {pageNum : Nat} {scale : ℚ}
    {syncPdf : HandlerId → Nat → Box → ℚ → Content} {futVal : Nat → Content} :
    ∀ {ds : List Detection} {kept ctr : Nat},
      (submitDets pageNum scale ds kept ctr).2.2 =
        (processedDets pageNum scale syncPdf futVal ds ctr).2 := by
  intro ds
  induction ds with
  | nil => intro kept ctr; rfl
  | cons d ds ih =>
    intro kept ctr
    by_cases himg : d.className = ("image").toList ∨
        d.className = ("figure").toList
    · rw [submitDets_cons_image himg, processedDets_cons_image himg]
      exact ih
    · rw [submitDets_cons_other himg, processedDets_cons_other himg]
      exact ih

/-- Per-page analogue of `applyWrites_submitElems`. -/
theorem applyWrites_submitDets {pageNum : Nat} {scale : ℚ}
    {syncPdf : HandlerId → Nat → Box → ℚ → Content} {futVal : Nat → Content} :
    ∀ (ds : List Detection) (ctr : Nat) (pre : List PdfElemData),
      applyWrites (pdfWrite futVal) (submitDets pageNum scale ds pre.length ctr).2.1
          (pre ++ syncPage syncPdf (submitDets pageNum scale ds pre.length ctr).1)
        = pre ++ (processedDets pageNum scale syncPdf futVal ds ctr).1 := by
  intro ds
  induction ds with
  | nil =>
    intro ctr pre
    simp [submitDets, processedDets, syncPage, applyWrites]
  | cons d ds ih =>
    intro ctr pre
    by_cases himg : d.className = ("image").toList ∨
        d.className = ("figure").toList
    · rw [submitDets_cons_image himg, processedDets_cons_image himg]
      rw [syncPage_cons_image himg, applyWrites_cons]
      rw [show listModify (pdfWrite futVal ctr) pre.length
          (pre ++ ⟨d.className, d.bbox, d.conf, none, getHandler d.className,
              pageNum, scale⟩ ::
            syncPage syncPdf
              (submitDets pageNum scale ds (pre.length + 1) (ctr + 1)).1) =
          pre ++ ⟨d.className, d.bbox, d.conf, some (futVal ctr),
              getHandler d.className, pageNum, scale⟩ ::
            syncPage syncPdf
              (submitDets pageNum scale ds (pre.length + 1) (ctr + 1)).1
        from listModify_append _ _ _ _]
      have := ih (ctr + 1) (pre ++
        [⟨d.className, d.bbox, d.conf, some (futVal ctr),
          getHandler d.className, pageNum, scale⟩])
      rw [List.length_append] at this
      simp only [List.append_assoc, List.cons_append, List.nil_append,
        List.length_cons, List.length_nil] at this ⊢
      exact this
    · rw [submitDets_cons_other himg, processedDets_cons_other himg]
      rw [syncPage_cons_other himg]
      have := ih ctr (pre ++
        [⟨d.className, d.bbox, d.conf,
          some (syncPdf (getHandler d.className) pageNum d.bbox scale),
          getHandler d.className, pageNum, scale⟩])
      rw [List.length_append] at this
      simp only [List.append_assoc, List.cons_append, List.nil_append,
        List.length_cons, List.length_nil] at this ⊢
      exact this

theorem submitPages_futures_mem {scaleOf : Nat → ℚ} :
    ∀ {input : List PdfPageData} {ctr : Nat} {t : Nat × Nat × Nat},
      t ∈ (submitPages scaleOf input ctr).2.1 →
        t.1 ∈ input.map PdfPageData.pageNumber := by
  intro input
  induction input with
  | nil => intro ctr t ht; simp [submitPages] at ht
  | cons pd rest ih =>
    intro ctr t ht
    simp only [submitPages] at ht
    rcases List.mem_append.mp ht with ht | ht
    · simp only [List.map_cons, List.mem_cons]
      exact Or.inl (submitDets_futures_mem ht).1
    · simp only [List.map_cons, List.mem_cons]
      exact Or.inr (ih ht)

theorem submitPages_futures_keys {scaleOf : Nat → ℚ} :
    ∀ {input : List PdfPageData} {ctr : Nat},
      (input.map PdfPageData.pageNumber).Nodup →
      (submitPages scaleOf input ctr).2.1.Pairwise
        (fun a b => a.1 ≠ b.1 ∨ a.2.1 ≠ b.2.1) := by
  intro input
  induction input with
  | nil => intro ctr _; simp [submitPages]
  | cons pd rest ih =>
    intro ctr hnodup
    simp only [List.map_cons, List.nodup_cons] at hnodup
    simp only [submitPages]
    rw [List.pairwise_append]
    refine ⟨?_, ih hnodup.2, ?_⟩
    · have hpw := @submitDets_futures_pairwise
        pd.pageNumber (scaleOf pd.pageNumber) pd.detections 0 ctr
      exact hpw.imp (fun h => Or.inr (Nat.ne_of_lt h))
    · intro a ha b hb
      have ha1 := (submitDets_futures_mem ha).1
      have hb1 := submitPages_futures_mem hb
      left
      rw [ha1]
      intro hcontra
      exact hnodup.1 (by rw [hcontra]; exact hb1)

theorem joinPass_submitPages_eq_processed {scaleOf : Nat → ℚ}
    {syncPdf : HandlerId → Nat → Box → ℚ → Content} {futVal : Nat → Content} :
    ∀ (input : List PdfPageData) (ctr : Nat),
      (input.map PdfPageData.pageNumber).Nodup →
      joinPass (pdfWrite futVal) (submitPages scaleOf input ctr).2.1
          (syncPassPdf syncPdf (submitPages scaleOf input ctr).1)
        = processedPages scaleOf syncPdf futVal input ctr := by
  intro input
  induction input with
  | nil => intro ctr _; rfl
  | cons pd rest ih =>
    intro ctr hnodup
    simp only [List.map_cons, List.nodup_cons] at hnodup
    simp only [submitPages, processedPages, syncPassPdf, List.map_cons,
      joinPass_append]
    rw [joinPass_head_all (pdfWrite futVal)
      (fun t ht => (submitDets_futures_mem ht).1)]
    rw [joinPass_skip (pdfWrite futVal)
      (fun t ht hcontra => hnodup.1
        (by rw [← hcontra]; exact submitPages_futures_mem ht))]
    have happly := @applyWrites_submitDets pd.pageNumber
      (scaleOf pd.pageNumber) syncPdf futVal pd.detections ctr []
    simp only [List.length_nil, List.nil_append] at happly
    rw [happly]
    rw [@submitDets_ctr _ _ syncPdf futVal _ _ _]
    exact congrArg (List.cons _) (ih _ hnodup.2)

/-- The full characterization of `extractFromPdf`: for any consumption
order of the futures (any completion order), the output equals the
reference result. -/
theorem extractFromPdfWith_spec (scaleOf : Nat → ℚ)
    (syncPdf : HandlerId → Nat → Box → ℚ → Content) (futVal : Nat → Content)
    (input : List PdfPageData) (order : List (Nat × Nat × Nat))
    (hnodup : (input.map PdfPageData.pageNumber).Nodup)
    (horder : order.Perm (pdfFutures scaleOf input)) :
    extractFromPdfWith scaleOf syncPdf futVal order input =
      expectedPdfOutput scaleOf syncPdf futVal input := by
  unfold extractFromPdfWith expectedPdfOutput
  rw [joinPass_perm (pdfWrite futVal) horder
    (submitPages_futures_keys hnodup)]
  unfold pdfFutures
  rw [joinPass_submitPages_eq_processed input 0 hnodup]

/-- Projection of a detection to its order-relevant identity. -/
def detProj (d : Detection) : PyStr × Box × ℚ := (d.className, d.bbox, d.conf)

/-- Projection of a PDF output element to its order-relevant identity. -/
def pdfOutProj (oe : PdfOutElem) : PyStr × Box × ℚ :=
  (oe.etype, oe.bbox, oe.confidence)

theorem processedDets_proj {pageNum : Nat} {scale : ℚ}
    {syncPdf : HandlerId → Nat → Box → ℚ → Content} {futVal : Nat → Content} :
    ∀ (ds : List Detection) (ctr : Nat),
      (processedDets pageNum scale syncPdf futVal ds ctr).1.map
          (fun ed => (ed.etype, ed.bbox, ed.confidence)) =
        ds.map detProj := by
  intro ds
  induction ds with
  | nil => intro ctr; rfl
  | cons d ds ih =>
    intro ctr
    by_cases himg : d.className = ("image").toList ∨
        d.className = ("figure").toList
    · rw [processedDets_cons_image himg]
      simp only [List.map_cons, ih (ctr + 1)]
      rfl
    · rw [processedDets_cons_other himg]
      simp only [List.map_cons, ih ctr]
      rfl

/-- Order-preservation of the PDF reference output: per page, the output
elements correspond one-to-one, in order, to the input detections. -/
theorem expectedPdfOutput_proj (scaleOf : Nat → ℚ)
    (syncPdf : HandlerId → Nat → Box → ℚ → Content) (futVal : Nat → Content) :
    ∀ (input : List PdfPageData) (ctr : Nat),
      (buildPdfOutput (processedPages scaleOf syncPdf futVal input ctr)).map
          (fun po => (po.pageNumber, po.elements.map pdfOutProj)) =
        input.map (fun pd => (pd.pageNumber, pd.detections.map detProj)) := by
  intro input
  induction input with
  | nil => intro ctr; rfl
  | cons pd rest ih =>
    intro ctr
    simp only [processedPages, buildPdfOutput, List.map_cons]
    refine congrArg₂ List.cons ?_ ?_
    · refine congrArg (Prod.mk pd.pageNumber) ?_
      rw [List.map_map]
      rw [← @processedDets_proj pd.pageNumber (scaleOf pd.pageNumber)
        syncPdf futVal pd.detections ctr]
      rfl
    · exact ih _

theorem processedSlides_content_isSome {prs : Nat → PptxSlide}
    {syncPptx : HandlerId → PShape → Nat → Content} {futVal : Nat → Content} :
    ∀ (input : List SlideData) (ctr : Nat),
      ∀ p ∈ processedSlides prs syncPptx futVal input ctr,
        ∀ ed ∈ p.2, ed.content.isSome := by
  intro input
  induction input with
  | nil => intro ctr p hp; simp [processedSlides] at hp
  | cons sd rest ih =>
    intro ctr p hp ed hed
    simp only [processedSlides] at hp
    rcases List.mem_cons.mp hp with rfl | hp
    · exact processedElems_content_isSome sd.elements ctr ed hed
    · exact ih _ p hp ed hed

/-- C1: both extraction dispatchers preserve original document order for
every completion order of the asynchronously submitted image futures.  For
any consumption order of the recorded `(page/slide, index, future)` triples
(any permutation of the submission order), the joined output equals the
reference result in which every element carries its own future's value at
its recorded positional index; and the reference result lists elements in
exactly the input order (for PPTX: the input order of the elements whose
position matched a shape; for PDF: all detections, one output element
each).  Page/slide numbers are assumed pairwise distinct, as produced by
the analyzers. -/
theorem dispatcher_preserves_document_order :
    (∀ (prs : Nat → PptxSlide) (syncPptx : HandlerId → PShape → Nat → Content)
        (futVal : Nat → Content) (input : List SlideData)
        (order : List (Nat × Nat × Nat)),
      (input.map SlideData.slideNumber).Nodup →
      order.Perm (pptxFutures prs input) →
      extractFromPptxWith prs syncPptx futVal order input =
        expectedPptxOutput prs syncPptx futVal input) ∧
    (∀ (prs : Nat → PptxSlide) (syncPptx : HandlerId → PShape → Nat → Content)
        (futVal : Nat → Content) (input : List SlideData),
      (expectedPptxOutput prs syncPptx futVal input).map
          (fun so => (so.slideNumber, so.elements.map outProj)) =
        input.map (fun sd => (sd.slideNumber,
          (sd.elements.filter (fun e =>
            (findShape (prs (sd.slideNumber - 1)) e.position).isSome)).map
              elemProj))) ∧
    (∀ (scaleOf : Nat → ℚ) (syncPdf : HandlerId → Nat → Box → ℚ → Content)
        (futVal : Nat → Content) (input : List PdfPageData)
        (order : List (Nat × Nat × Nat)),
      (input.map PdfPageData.pageNumber).Nodup →
      order.Perm (pdfFutures scaleOf input) →
      extractFromPdfWith scaleOf syncPdf futVal order input =
        expectedPdfOutput scaleOf syncPdf futVal input) ∧
    (∀ (scaleOf : Nat → ℚ) (syncPdf : HandlerId → Nat → Box → ℚ → Content)
        (futVal : Nat → Content) (input : List PdfPageData),
      (expectedPdfOutput scaleOf syncPdf futVal input).map
          (fun po => (po.pageNumber, po.elements.map pdfOutProj)) =
        input.map (fun pd => (pd.pageNumber, pd.detections.map detProj))) := by
  refine ⟨extractFromPptxWith_spec, ?_, extractFromPdfWith_spec, ?_⟩
  · intro prs syncPptx futVal input
    exact expectedPptxOutput_proj prs syncPptx futVal input 0
  · intro scaleOf syncPdf futVal input
    exact expectedPdfOutput_proj scaleOf syncPdf futVal input 0

/-- Witness for C1 at a concrete two-page input on both paths, with the
join consuming the two futures in reversed (non-submission) order. -/
theorem dispatcher_preserves_document_order_witness :
    extractFromPptxWith (fun _ => ⟨[⟨0, 0, 7⟩]⟩)
        (fun _ _ _ => ("c").toList) (fun _ => ("d").toList)
        [(2, 0, 1), (1, 0, 0)]
        [⟨1, [⟨("image").toList, (0, 0), (1, 1)⟩]⟩,
         ⟨2, [⟨("image").toList, (0, 0), (1, 1)⟩]⟩] =
      expectedPptxOutput (fun _ => ⟨[⟨0, 0, 7⟩]⟩)
        (fun _ _ _ => ("c").toList) (fun _ => ("d").toList)
        [⟨1, [⟨("image").toList, (0, 0), (1, 1)⟩]⟩,
         ⟨2, [⟨("image").toList, (0, 0), (1, 1)⟩]⟩] ∧
    extractFromPdfWith (fun _ => 1)
        (fun _ _ _ _ => ("c").toList) (fun _ => ("d").toList)
        [(2, 0, 1), (1, 0, 0)]
        [⟨1, [⟨("figure").toList, ⟨0, 0, 1, 1⟩, 1/2⟩]⟩,
         ⟨2, [⟨("image").toList, ⟨0, 0, 1, 1⟩, 1/2⟩]⟩] =
      expectedPdfOutput (fun _ => 1)
        (fun _ _ _ _ => ("c").toList) (fun _ => ("d").toList)
        [⟨1, [⟨("figure").toList, ⟨0, 0, 1, 1⟩, 1/2⟩]⟩,
         ⟨2, [⟨("image").toList, ⟨0, 0, 1, 1⟩, 1/2⟩]⟩] :=
  ⟨dispatcher_preserves_document_order.1 (fun _ => ⟨[⟨0, 0, 7⟩]⟩)
      (fun _ _ _ => ("c").toList) (fun _ => ("d").toList)
      [⟨1, [⟨("image").toList, (0, 0), (1, 1)⟩]⟩,
       ⟨2, [⟨("image").toList, (0, 0), (1, 1)⟩]⟩]
      [(2, 0, 1), (1, 0, 0)] (by decide)
      (show _ from List.Perm.swap (1, 0, 0) (2, 0, 1) []),
   dispatcher_preserves_document_order.2.2.1 (fun _ => 1)
      (fun _ _ _ _ => ("c").toList) (fun _ => ("d").toList)
      [⟨1, [⟨("figure").toList, ⟨0, 0, 1, 1⟩, 1/2⟩]⟩,
       ⟨2, [⟨("image").toList, ⟨0, 0, 1, 1⟩, 1/2⟩]⟩]
      [(2, 0, 1), (1, 0, 0)] (by decide)
      (show _ from List.Perm.swap (1, 0, 0) (2, 0, 1) [])⟩

/-- C10: in PPTX extraction an analyzed element whose recorded (top, left)
position matches no shape on its slide is silently omitted: it produces no
output record at all (the output record shape has no error field), no
exception interrupts the slide, every other element is still processed
(content filled in), and the slide's output list is the in-order
projection of just the matched elements — hence possibly shorter than the
input.  The final conjunct shows it concretely: two analyzed elements, one
matching shape, output list of length one. -/
theorem pptx_unmatched_position_silently_skipped :
    (∀ (prs : Nat → PptxSlide) (syncPptx : HandlerId → PShape → Nat → Content)
        (futVal : Nat → Content) (input : List SlideData),
      (input.map SlideData.slideNumber).Nodup →
      ((extractFromPptx prs syncPptx futVal input).map
          (fun so => (so.slideNumber, so.elements.map outProj)) =
        input.map (fun sd => (sd.slideNumber,
          (sd.elements.filter (fun e =>
            (findShape (prs (sd.slideNumber - 1)) e.position).isSome)).map
              elemProj)) ∧
       ∀ so ∈ extractFromPptx prs syncPptx futVal input,
         ∀ oe ∈ so.elements, oe.content.isSome)) ∧
    extractFromPptx (fun _ => ⟨[⟨0, 0, 7⟩]⟩)
        (fun _ _ _ => ("c").toList) (fun _ => ("d").toList)
        [⟨1, [⟨("text").toList, (0, 0), (1, 1)⟩,
              ⟨("text").toList, (5, 5), (1, 1)⟩]⟩] =
      [⟨1, [⟨("text").toList, (0, 0), (1, 1), some (("c").toList)⟩]⟩] := by
  constructor
  · intro prs syncPptx futVal input hnodup
    have hspec := extractFromPptxWith_spec prs syncPptx futVal input
      (pptxFutures prs input) hnodup (List.Perm.refl _)
    rw [show extractFromPptx prs syncPptx futVal input =
      extractFromPptxWith prs syncPptx futVal (pptxFutures prs input) input
      from rfl, hspec]
    constructor
    · exact expectedPptxOutput_proj prs syncPptx futVal input 0
    · intro so hso oe hoe
      unfold expectedPptxOutput buildOutput at hso
      obtain ⟨p, hp, rfl⟩ := List.mem_map.mp hso
      obtain ⟨ed, hed, rfl⟩ := List.mem_map.mp hoe
      exact processedSlides_content_isSome input 0 p hp ed hed
  · decide

/-- Witness for C10 at the concrete one-slide input of its final conjunct
(one matched and one unmatched element). -/
theorem pptx_unmatched_position_silently_skipped_witness :
    (extractFromPptx (fun _ => ⟨[⟨0, 0, 7⟩]⟩)
        (fun _ _ _ => ("c").toList) (fun _ => ("d").toList)
        [⟨1, [⟨("text").toList, (0, 0), (1, 1)⟩,
              ⟨("text").toList, (5, 5), (1, 1)⟩]⟩]).map
        (fun so => (so.slideNumber, so.elements.map outProj)) =
      ([⟨1, [⟨("text").toList, (0, 0), (1, 1)⟩,
            ⟨("text").toList, (5, 5), (1, 1)⟩]⟩] : List SlideData).map
        (fun sd => (sd.slideNumber,
          (sd.elements.filter (fun e =>
            (findShape ((fun _ => (⟨[⟨0, 0, 7⟩]⟩ : PptxSlide))
              (sd.slideNumber - 1)) e.position).isSome)).map elemProj)) :=
  (pptx_unmatched_position_silently_skipped.1 (fun _ => ⟨[⟨0, 0, 7⟩]⟩)
    (fun _ _ _ => ("c").toList) (fun _ => ("d").toList)
    [⟨1, [⟨("text").toList, (0, 0), (1, 1)⟩,
          ⟨("text").toList, (5, 5), (1, 1)⟩]⟩] (by decide)).1
